import Mathlib

/-!
# omise-go: the query-parameter flattener (`internal/map.go`)

A shallow embedding of `MapURLValues` / `mapURLValues`, the reflective routine that
flattens a Go struct into `url.Values`, followed by theorems about it.

Modelling decisions, all visible in the definitions below:

* A Go value is a `Value`; the constructor says which `reflect.Kind` the code sees.
  The fields of a struct are its exported fields, each with its `StructField`
  metadata (identifier, the `query` and `json` tag entries, the embedded flag).
  `reflect` refuses `Interface()` on a value read from an unexported field, so user
  structs with unexported fields are outside the model; the one struct of that shape the
  model knows is `time.Time`, whose three words are unexported.
* `url.Values` is an association list with at most one binding a key; `Values.Set`
  replaces the binding of a key or appends a new one.
* A run of `mapURLValues` ends in `Run.ok` (returned `nil`), `Run.error` (returned an
  `*ErrMap`; the target as it stood is kept) or `Run.panic` (a Go run-time panic).
* The Go standard library functions whose text output the code only forwards
  (`strings.ToLower`, `strconv.FormatFloat`, `time.Time.Format`) are fields of `GoLib`.
-/

namespace Omise

/-! ## Data model -/

/-- The three words of Go's `time.Time`: `wall`, `ext` and the location pointer
(`none` is the nil pointer, which stands for UTC). -/
structure Time where
  wall : Nat
  ext : Int
  loc : Option Nat
deriving DecidableEq, Repr

/-- The part of `reflect.StructField` the flattener reads: the identifier, what
`Tag.Get("query")` and `Tag.Get("json")` return, and whether the field is embedded. -/
structure StructField where
  Name : String
  query : String
  json : String
  Anonymous : Bool
deriving DecidableEq, Repr

mutual
/-- A Go value as `reflect` shows it to the flattener.

* `int` stands for the kinds Int, Int8 .. Int64, `uint` for Uint, Uint8 .. Uint64;
* `float32` and `float64` carry the IEEE-754 bit pattern;
* `stringMap` is a value of type `map[string]string`, its entries in the order the
  `range` loop visits them;
* `otherMap` is a map of any other type: whether the kind of its key type and of its
  element type is String, and its length;
* `nilPtr` and `ptrTo` are pointers;
* `other` is a value of any kind the conversion switch does not list (complex numbers,
  slices, arrays, channels, functions, interfaces, uintptr, unsafe pointers): whether
  its type is comparable and whether the value equals the zero value of its type. -/
inductive Value where
  | bool (b : Bool)
  | int (v : Int)
  | uint (v : Nat)
  | float32 (bits : Nat)
  | float64 (bits : Nat)
  | string (s : String)
  | stringMap (m : List (String × String))
  | otherMap (keyIsString elemIsString : Bool) (len : Nat)
  | time (t : Time)
  | struct (fields : Fields)
  | nilPtr
  | ptrTo (v : Value)
  | other (comparable isZero : Bool)
/-- The fields of a struct value in declaration order. -/
inductive Fields where
  | nil
  | cons (field : StructField) (v : Value) (rest : Fields)
end

/-- Go's `url.Values` (`map[string][]string`). -/
abbrev Values := List (String × List String)

/-- `ErrMap` of the source. -/
structure ErrMap where
  field : StructField
  reason : String
deriving DecidableEq, Repr

/-- The run-time panics the flattener can raise. -/
inductive PanicCause where
  /-- `==` on interfaces whose dynamic type is not comparable -/
  | uncomparable
  /-- `Value.Interface` on a value read from an unexported field -/
  | unexportedField
  /-- `Type.Key` on a type that is not a map type -/
  | keyOfNonMap
  /-- a failed type assertion `.(map[string]string)` -/
  | typeAssertion
  /-- `Value.Type` on the zero `reflect.Value` -/
  | invalidValue
  /-- `Value.NumField` on a value that is not a struct -/
  | notStruct
deriving DecidableEq, Repr

/-- How a call of `mapURLValues` ends; `target` is the caller's `url.Values` after it. -/
inductive Run where
  | ok (target : Values)
  | error (e : ErrMap) (target : Values)
  | panic (c : PanicCause)
deriving DecidableEq, Repr

/-- How a call of `MapURLValues` ends: the returned pair `(url.Values, error)`, where
`none` is `nil`, or a panic. -/
inductive Outcome where
  | returned (values : Option Values) (err : Option ErrMap)
  | panicked (c : PanicCause)
deriving DecidableEq, Repr

/-- The standard-library functions the flattener forwards its values to.
`FormatFloat bits bitSize` is `strconv.FormatFloat(v, 'f', 4, bitSize)` of the float with
that bit pattern and `Format` is `t.Format(time.RFC3339Nano)`; both always produce at
least one character. -/
structure GoLib where
  ToLower : String → String
  FormatFloat : Nat → Nat → String
  Format : Time → String
  FormatFloat_ne : ∀ bits bitSize, FormatFloat bits bitSize ≠ ""
  Format_ne : ∀ t, Format t ≠ ""

/-! ## Library functions modelled concretely -/

/-- `strings.Split(s, ",")` on the characters of `s`. -/
def splitChars : List Char → List String
  | [] => [""]
  | c :: cs =>
    if c = ',' then "" :: splitChars cs
    else
      match splitChars cs with
      | [] => [String.mk [c]]
      | hd :: tl => String.mk (c :: hd.data) :: tl

/-- `strings.Split(s, ",")`. -/
def Split (s : String) : List String := splitChars s.data

/-- `strconv.FormatBool`. -/
def FormatBool (b : Bool) : String := if b then "true" else "false"

/-- `strconv.FormatUint(v, 10)`. -/
def FormatUint (v : Nat) : String := Nat.repr v

/-- `strconv.FormatInt(v, 10)`. -/
def FormatInt : Int → String
  | Int.ofNat n => Nat.repr n
  | Int.negSucc n => "-" ++ Nat.repr (n + 1)

/-- `Error` of `*ErrMap`. -/
def ErrMap.Error (err : ErrMap) : String :=
  "cannot map field `" ++ err.field.Name ++ "`, " ++ err.reason

/-- `wallToInternal` of package time, the seconds from year 1 to year 1885. -/
def wallToInternal : Int := (1884 * 365 + 1884 / 4 - 1884 / 100 + 1884 / 400) * 86400

/-- `nsec` of `time.Time`: `wall & nsecMask`. -/
def Time.nsec (t : Time) : Nat := t.wall % 2 ^ 30

/-- `sec` of `time.Time`: seconds since year 1; read from `wall` when the
`hasMonotonic` bit (bit 63) is set and from `ext` otherwise. -/
def Time.sec (t : Time) : Int :=
  if t.wall / 2 ^ 63 % 2 = 1 then wallToInternal + ((t.wall * 2 % 2 ^ 64) / 2 ^ 31 : Nat)
  else t.ext

/-- `IsZero` of `time.Time`. -/
def Time.IsZero (t : Time) : Bool := t.sec == 0 && t.nsec == 0

/-- `Set` of `url.Values`: bind `key` to the one-element slice holding `value`. -/
def Values.Set : Values → String → String → Values
  | [], key, value => [(key, [value])]
  | (k, vs) :: rest, key, value =>
    if k = key then (k, [value]) :: rest else (k, vs) :: Values.Set rest key value

/-- Indexing of `url.Values`: the slice bound to `key`, `none` when the key is absent. -/
def Values.lookup : Values → String → Option (List String)
  | [], _ => none
  | (k, vs) :: rest, key => if k = key then some vs else Values.lookup rest key

/-! ## The flattener -/

/-- Lines 65-71: the loop over the options of the `query` tag. -/
def scanOpts : List String → Bool → Bool
  | [], sendZero => sendZero
  | opt :: opts, sendZero => scanOpts opts (if opt = "sendzero" then true else sendZero)

/-- Lines 46-56: the candidate key of a field and the options left over from the
`query` tag, before the skip test and the parent is applied. -/
def candidate (L : GoLib) (field : StructField) : String × List String :=
  let opts := Split field.query
  let (tag, opts) :=
    match opts with
    | [] => ("", opts)
    | hd :: tl => (hd, tl)
  let tag := if tag = "" then field.json else tag
  let tag := if tag = "" then L.ToLower field.Name else tag
  (tag, opts)

/-- Lines 61-63: nesting of the key under the parent. -/
def nest (parent tag : String) : String :=
  if parent ≠ "" then parent ++ "[" ++ tag ++ "]" else tag

mutual
/-- Whether the type of the value admits `==` (maps, slices and functions do not, a
struct does when all its fields do). -/
def Value.comparable : Value → Bool
  | .stringMap _ => false
  | .otherMap _ _ _ => false
  | .struct fields => fields.comparable
  | .other c _ => c
  | _ => true
/-- All field types are comparable. -/
def Fields.comparable : Fields → Bool
  | .nil => true
  | .cons _ v rest => v.comparable && rest.comparable
end

mutual
/-- The value of `v == zero` for a value of comparable type, `zero` the zero value of
its type: floats compare numerically (both zeros are zero), a time compares its three
words, a struct compares field by field. -/
def Value.eqZero : Value → Bool
  | .bool b => !b
  | .int v => v == 0
  | .uint v => v == 0
  | .float32 bits => bits % 2 ^ 31 == 0
  | .float64 bits => bits % 2 ^ 63 == 0
  | .string s => s == ""
  | .stringMap _ => false
  | .otherMap _ _ _ => false
  | .time t => t.wall == 0 && t.ext == 0 && t.loc == none
  | .struct fields => fields.eqZero
  | .nilPtr => true
  | .ptrTo _ => false
  | .other _ z => z
/-- Every field equals the zero value of its type. -/
def Fields.eqZero : Fields → Bool
  | .nil => true
  | .cons _ v rest => v.eqZero && rest.eqZero
end

/-- Lines 83-89: the zero check. A map is zero when its length is 0; any other value is
compared with the zero value of its type through `interface == interface`, which panics
when the type is not comparable. -/
def zeroCheck : Value → Except PanicCause Bool
  | .stringMap m => .ok (m.length == 0)
  | .otherMap _ _ len => .ok (len == 0)
  | v => if v.comparable then .ok v.eqZero else .error .uncomparable

/-- Lines 144-146: store the converted text when it is not empty. -/
def store (target : Values) (tag out : String) : Run :=
  if out ≠ "" then .ok (target.Set tag out) else .ok target

/-- Lines 116-118: the `range` loop over a `map[string]string`. -/
def setEntries (tag : String) : List (String × String) → Values → Values
  | [], target => target
  | (key, value) :: rest, target =>
    setEntries tag rest (target.Set (tag ++ "[" ++ key ++ "]") value)

/-- Sequencing of the loop: go on with the next field unless the call returned an
error or panicked. -/
def Run.next (r : Run) (k : Values → Run) : Run :=
  match r with
  | .ok target => k target
  | .error e target => .error e target
  | .panic c => .panic c

mutual
/-- The loop of `mapURLValues` over the fields of a struct (lines 42-149). -/
def mapFields (L : GoLib) : Fields → Values → String → Run
  | .nil, target, _ => .ok target
  | .cons field v rest, target, parent =>
    let (tag, opts) := candidate L field
    if tag = "-" then mapFields L rest target parent
    else
      let tag := nest parent tag
      let sendZero := scanOpts opts false
      -- ptr deref
      match v with
      | .nilPtr => mapFields L rest target parent
      | .ptrTo w =>
        (mapField L field true w tag sendZero target).next
          (fun target => mapFields L rest target parent)
      | w =>
        (mapField L field false w tag sendZero target).next
          (fun target => mapFields L rest target parent)
/-- The body of the loop from the zero check on (lines 83-146), for the field value
after the pointer dereference; `viaPtr` says that the declared type of the field is a
pointer type, so that `field.Type` is not the type of `fieldval`. -/
def mapField (L : GoLib) (field : StructField) (viaPtr : Bool) :
    Value → String → Bool → Values → Run
  | fieldval, tag, sendZero, target =>
    match zeroCheck fieldval with
    | .error c => .panic c
    | .ok isZero =>
      if isZero && !sendZero then .ok target
      else
        match fieldval with
        | .bool b => store target tag (FormatBool b)
        | .int v => store target tag (FormatInt v)
        | .uint v => store target tag (FormatUint v)
        | .float32 bits => store target tag (L.FormatFloat bits 32)
        | .float64 bits => store target tag (L.FormatFloat bits 64)
        | .string s => store target tag s
        | .stringMap m =>
          -- `field.Type.Key()`: `field.Type` is the declared type, a pointer type here
          if viaPtr then .panic .keyOfNonMap
          else .ok (setEntries tag m target)
        | .otherMap keyIsString elemIsString _ =>
          if viaPtr then .panic .keyOfNonMap
          else if !keyIsString || !elemIsString then
            .error ⟨field, "unsupported type. (only map[string]string supported for maps)"⟩
              target
          else .panic .typeAssertion
        | .time t =>
          if !viaPtr then
            if !t.IsZero then store target tag (L.Format t) else store target tag ""
          else
            -- `field.Type` is `*time.Time`, not `timeType`: both struct cases call
            -- `mapURLValues` on the `time.Time` value, see `mapURLValues` below
            .panic .unexportedField
        | .struct fields =>
          if field.Anonymous then mapFields L fields target ""
          else mapFields L fields target tag
        | _ => .error ⟨field, "unsupported type."⟩ target
end

/-- The function `mapURLValues` of the source: lines 35-41 take the value out of a pointer
and read its fields, then the loop runs. `time.Time` is a struct of three unexported
fields; the loop reaches the zero check of the first (its key is not the skip sentinel, it
is no pointer and no map) and `Interface` panics there. -/
def mapURLValues (L : GoLib) (i : Value) (target : Values) (parent : String) : Run :=
  let ival : Option Value :=
    match i with
    | .nilPtr => none
    | .ptrTo v => some v
    | v => some v
  match ival with
  | none => .panic .invalidValue
  | some (.struct fields) => mapFields L fields target parent
  | some (.time _) => .panic .unexportedField
  | some _ => .panic .notStruct

/-- The function `MapURLValues` of the source (lines 25-32). -/
def MapURLValues (L : GoLib) (i : Value) : Outcome :=
  let result : Values := []
  match mapURLValues L i result "" with
  | .error err _ => .returned none (some err)
  | .ok result => .returned (some result) none
  | .panic c => .panicked c

/-! ## Vocabulary of the specification -/

/-- A struct value from the list of its fields. -/
def Fields.ofList : List (StructField × Value) → Fields
  | [] => .nil
  | (field, v) :: rest => .cons field v (Fields.ofList rest)

/-- A struct value with the given fields. -/
def record (fields : List (StructField × Value)) : Value := .struct (Fields.ofList fields)

/-- The name part of the `query` directive: the text before its first comma. -/
def queryName (field : StructField) : String :=
  String.mk (field.query.data.takeWhile (fun c => c ≠ ','))

/-- The key of a field by the priority rule of the specification: the name of the
`query` directive, else the `json` annotation, else the identifier in lower case. -/
def specKey (L : GoLib) (field : StructField) : String :=
  if queryName field ≠ "" then queryName field
  else if field.json ≠ "" then field.json
  else L.ToLower field.Name

/-- The field carries the `sendzero` option: it is one of the options that follow the
name in the `query` directive. -/
def sendzero (field : StructField) : Bool :=
  decide ("sendzero" ∈ (Split field.query).tail)

/-- Concatenation of field lists. -/
def Fields.append : Fields → Fields → Fields
  | .nil, gs => gs
  | .cons field v rest, gs => .cons field v (Fields.append rest gs)

/-- The value is a pointer (its kind is Ptr). -/
def Value.isPtr : Value → Bool
  | .nilPtr => true
  | .ptrTo _ => true
  | _ => false

/-- The key `k[mk]` of the entry a map field with key `k` stores for its map key `mk`. -/
def subKey (k mk : String) : String := k ++ "[" ++ mk ++ "]"

/-- The text the conversion switch produces for a value of a scalar kind (boolean,
integer, unsigned integer, float, text); `none` for the other kinds. -/
def scalarText (L : GoLib) : Value → Option String
  | .bool b => some (FormatBool b)
  | .int v => some (FormatInt v)
  | .uint v => some (FormatUint v)
  | .float32 bits => some (L.FormatFloat bits 32)
  | .float64 bits => some (L.FormatFloat bits 64)
  | .string s => some s
  | _ => none

/-- The parameter set the claim on nesting describes for scalar fields flattened inside
the scope `scope`: the field with own name `n` that is emitted (not skipped, not a zero
value unless it carries `sendzero`, text not empty) is stored under `scope[n]`. -/
def storeUnder (L : GoLib) (scope : String) : List (StructField × Value) → Values → Values
  | [], target => target
  | (field, v) :: rest, target =>
    match scalarText L v with
    | none => storeUnder L scope rest target
    | some text =>
      if specKey L field = "-" then storeUnder L scope rest target
      else if v.eqZero && !sendzero field then storeUnder L scope rest target
      else if text = "" then storeUnder L scope rest target
      else storeUnder L scope rest (target.Set (subKey scope (specKey L field)) text)

/-- The value of a decimal digit character, `none` for any other character. -/
def digitValue (c : Char) : Option Nat :=
  if 48 ≤ c.toNat ∧ c.toNat ≤ 57 then some (c.toNat - 48) else none

/-- Reading of a run of decimal digits, most significant first, continuing from `acc`. -/
def parseDigits : List Char → Nat → Option Nat
  | [], acc => some acc
  | c :: cs, acc =>
    match digitValue c with
    | none => none
    | some d => parseDigits cs (acc * 10 + d)

/-- Parsing of an unsigned base-10 integer: a non-empty run of digits. -/
def ParseUint (s : String) : Option Nat :=
  match s.data with
  | [] => none
  | c :: cs => parseDigits (c :: cs) 0

/-- Parsing of a signed base-10 integer: digits, or a minus sign followed by digits. -/
def ParseInt (s : String) : Option Int :=
  match s.data with
  | [] => none
  | c :: cs =>
    if c = '-' then
      match cs with
      | [] => none
      | d :: ds => (parseDigits (d :: ds) 0).map (fun n => -(n : Int))
    else (parseDigits (c :: cs) 0).map (fun n => (n : Int))

/-- Canonical digits of a positive number: at least one character, decimal digits only,
and the first is not 0. -/
def canonicalDigits (cs : List Char) : Bool :=
  cs.all (fun c => (digitValue c).isSome) &&
    match cs with
    | [] => false
    | c :: _ => decide (c ≠ '0')

mutual
/-- The entries of the `map[string]string` values the value holds: itself, behind a
pointer, or in a nested record at any depth. -/
def Value.mapEntries : Value → List (String × String)
  | .stringMap m => m
  | .struct fields => fields.mapEntries
  | .ptrTo v => v.mapEntries
  | _ => []
/-- The entries of the `map[string]string` values of all fields. -/
def Fields.mapEntries : Fields → List (String × String)
  | .nil => []
  | .cons _ v rest => v.mapEntries ++ rest.mapEntries
end

/-- Every key of the parameter set is bound to exactly one value, and a binding whose
value is the empty text has a key that satisfies `allowed`. -/
def Values.Inv (allowed : String → Prop) (vals : Values) : Prop :=
  ∀ kv ∈ vals, ∃ s, kv.2 = [s] ∧ (s = "" → allowed kv.1)

/-- A library instance on which the definitions can be evaluated: lower-casing of ASCII
letters and stand-in formatters that print the words they are given. -/
def sampleLib : GoLib where
  ToLower := fun s => String.mk (s.data.map Char.toLower)
  FormatFloat := fun bits bitSize => Nat.repr bitSize ++ "f" ++ Nat.repr bits
  Format := fun t => "T" ++ Nat.repr t.wall
  FormatFloat_ne := by intro b s; simp [String.ext_iff]
  Format_ne := by intro t; simp [String.ext_iff]

/-! ## Lemmas on the library functions -/

theorem splitChars_ne_nil (cs : List Char) : splitChars cs ≠ [] := by
  induction cs with
  | nil => simp [splitChars]
  | cons c cs ih =>
    unfold splitChars
    split
    · simp
    · split <;> simp

theorem splitChars_head (cs : List Char) :
    ∃ tl, splitChars cs = String.mk (cs.takeWhile (fun c => c ≠ ',')) :: tl := by
  induction cs with
  | nil => exact ⟨[], rfl⟩
  | cons c cs ih =>
    obtain ⟨tl, htl⟩ := ih
    by_cases hc : c = ','
    · exact ⟨splitChars cs, by simp [splitChars, hc]⟩
    · exact ⟨tl, by simp [splitChars, hc, htl]⟩

theorem Split_eq (field : StructField) :
    Split field.query = queryName field :: (Split field.query).tail := by
  obtain ⟨tl, htl⟩ := splitChars_head field.query.data
  simp [Split, queryName, htl]

theorem scanOpts_true (opts : List String) : scanOpts opts true = true := by
  induction opts with
  | nil => rfl
  | cons o os ih => simp [scanOpts, ih]

theorem scanOpts_false (opts : List String) :
    scanOpts opts false = decide ("sendzero" ∈ opts) := by
  induction opts with
  | nil => simp [scanOpts]
  | cons o os ih =>
    by_cases ho : o = "sendzero"
    · simp [scanOpts, ho, scanOpts_true]
    · have ho2 : ¬ "sendzero" = o := fun h => ho h.symm
      simp [scanOpts, ho, ho2, ih]

theorem candidate_fst (L : GoLib) (field : StructField) :
    (candidate L field).1 = specKey L field := by
  have h := Split_eq field
  unfold candidate specKey
  rw [h]
  by_cases h1 : queryName field = "" <;> by_cases h2 : field.json = "" <;> simp [h1, h2]

theorem candidate_snd (L : GoLib) (field : StructField) :
    scanOpts (candidate L field).2 false = sendzero field := by
  have h := Split_eq field
  rw [scanOpts_false]
  unfold candidate sendzero
  rw [h]
  simp

/-! ## Equations of the loop -/

theorem Fields.listInduction {P : Fields → Prop} (hnil : P .nil)
    (hcons : ∀ field v rest, P rest → P (.cons field v rest)) : ∀ fs, P fs
  | .nil => hnil
  | .cons field v rest => hcons field v rest (Fields.listInduction hnil hcons rest)

theorem mapFields_nil (L : GoLib) (target : Values) (parent : String) :
    mapFields L .nil target parent = .ok target := by
  simp [mapFields]

theorem mapFields_skip (L : GoLib) (field : StructField) (v : Value) (rest : Fields)
    (target : Values) (parent : String) (h : specKey L field = "-") :
    mapFields L (.cons field v rest) target parent = mapFields L rest target parent := by
  rw [← candidate_fst] at h
  cases v <;> simp [mapFields, h]

theorem mapFields_nilPtr (L : GoLib) (field : StructField) (rest : Fields)
    (target : Values) (parent : String) :
    mapFields L (.cons field .nilPtr rest) target parent = mapFields L rest target parent := by
  simp [mapFields]

theorem mapFields_ptrTo (L : GoLib) (field : StructField) (w : Value) (rest : Fields)
    (target : Values) (parent : String) (h : specKey L field ≠ "-") :
    mapFields L (.cons field (.ptrTo w) rest) target parent =
      (mapField L field true w (nest parent (specKey L field)) (sendzero field) target).next
        (fun target => mapFields L rest target parent) := by
  have h1 := candidate_fst L field
  have h2 := candidate_snd L field
  simp [mapFields, h, h1, h2]

theorem mapFields_value (L : GoLib) (field : StructField) (v : Value) (rest : Fields)
    (target : Values) (parent : String) (h : specKey L field ≠ "-") (hv : v.isPtr = false) :
    mapFields L (.cons field v rest) target parent =
      (mapField L field false v (nest parent (specKey L field)) (sendzero field) target).next
        (fun target => mapFields L rest target parent) := by
  have h1 := candidate_fst L field
  have h2 := candidate_snd L field
  rw [← h1] at h
  cases v <;> simp_all [mapFields, Value.isPtr]

theorem mapFields_append (L : GoLib) (fs gs : Fields) (target : Values) (parent : String) :
    mapFields L (fs.append gs) target parent =
      (mapFields L fs target parent).next (fun target => mapFields L gs target parent) := by
  induction fs using Fields.listInduction generalizing target with
  | hnil => simp [Fields.append, mapFields, Run.next]
  | hcons field v rest ih =>
    by_cases hk : specKey L field = "-"
    · simp [Fields.append, mapFields_skip, hk, ih]
    · cases hv : v.isPtr
      · rw [Fields.append, mapFields_value L field v _ _ _ hk hv,
          mapFields_value L field v _ _ _ hk hv]
        cases mapField L field false v (nest parent (specKey L field)) (sendzero field) target <;>
          simp [Run.next, ih]
      · cases v <;> simp [Value.isPtr] at hv
        · simp [Fields.append, mapFields_nilPtr, ih]
        · rename_i w
          rw [Fields.append, mapFields_ptrTo L field w _ _ _ hk,
            mapFields_ptrTo L field w _ _ _ hk]
          cases mapField L field true w (nest parent (specKey L field)) (sendzero field)
            target <;> simp [Run.next, ih]

theorem Fields.ofList_append (xs ys : List (StructField × Value)) :
    Fields.ofList (xs ++ ys) = (Fields.ofList xs).append (Fields.ofList ys) := by
  induction xs with
  | nil => rfl
  | cons x xs ih =>
    obtain ⟨field, v⟩ := x
    simp [Fields.ofList, Fields.append, ih]

theorem specKey_skip (L : GoLib) (field : StructField)
    (h : queryName field = "-" ∨ (queryName field = "" ∧ field.json = "-")) :
    specKey L field = "-" := by
  rcases h with h | ⟨h1, h2⟩
  · simp [specKey, h]
  · simp [specKey, h1, h2]

theorem mapField_bool (L : GoLib) (field : StructField) (viaPtr : Bool) (b : Bool)
    (tag : String) (sendZero : Bool) (target : Values) :
    mapField L field viaPtr (.bool b) tag sendZero target =
      if b then .ok (target.Set tag "true")
      else if sendZero then .ok (target.Set tag "false") else .ok target := by
  cases b <;> cases sendZero <;>
    simp [mapField, zeroCheck, Value.comparable, Value.eqZero, store, FormatBool]

theorem subKey_injective (k a b : String) (h : subKey k a = subKey k b) : a = b := by
  simp only [subKey, String.ext_iff, String.data_append] at h
  simpa [String.ext_iff] using h

theorem subKey_ne_self (k mk : String) : subKey k mk ≠ k := by
  intro h
  have hl := congrArg String.length h
  have h1 : "[".length = 1 := by decide
  have h2 : "]".length = 1 := by decide
  simp only [subKey, String.length_append, h1, h2] at hl
  omega

theorem Values.Set_of_not_mem (target : Values) (key value : String)
    (h : key ∉ target.map Prod.fst) : target.Set key value = target ++ [(key, [value])] := by
  induction target with
  | nil => rfl
  | cons kv rest ih =>
    obtain ⟨k, vs⟩ := kv
    simp only [List.map_cons, List.mem_cons, not_or] at h
    have hne : ¬ k = key := fun e => h.1 e.symm
    simp [Values.Set, hne, ih h.2]

theorem setEntries_fresh (tag : String) (m : List (String × String)) (target : Values)
    (hnd : (m.map Prod.fst).Nodup)
    (hfresh : ∀ mk ∈ m.map Prod.fst, subKey tag mk ∉ target.map Prod.fst) :
    setEntries tag m target = target ++ m.map (fun kv => (subKey tag kv.1, [kv.2])) := by
  induction m generalizing target with
  | nil => simp [setEntries]
  | cons kv rest ih =>
    obtain ⟨mk, mv⟩ := kv
    simp only [List.map_cons, List.nodup_cons] at hnd
    have h1 : subKey tag mk ∉ target.map Prod.fst := hfresh mk (by simp)
    have hset := Values.Set_of_not_mem target (subKey tag mk) mv h1
    simp only [subKey] at hset
    simp only [setEntries, hset]
    rw [ih _ hnd.2]
    · simp [subKey]
    · intro mk2 hmk2
      simp only [List.map_append, List.map_cons, List.map_nil, List.mem_append,
        List.mem_singleton, not_or]
      refine ⟨hfresh mk2 (by simp [hmk2]), ?_⟩
      intro he
      have := subKey_injective tag mk2 mk he
      exact hnd.1 (this ▸ hmk2)

theorem lookup_entries (k : String) (m : List (String × String))
    (hnd : (m.map Prod.fst).Nodup) (mk mv : String) (hmem : (mk, mv) ∈ m) :
    Values.lookup (m.map (fun kv => (subKey k kv.1, [kv.2]))) (subKey k mk) = some [mv] := by
  induction m with
  | nil => simp at hmem
  | cons kv rest ih =>
    obtain ⟨a, b⟩ := kv
    simp only [List.map_cons, List.nodup_cons] at hnd
    simp only [List.mem_cons, Prod.mk.injEq] at hmem
    rcases hmem with ⟨ha, hb⟩ | hmem
    · simp [Values.lookup, ha, hb]
    · have hne : ¬ subKey k a = subKey k mk := by
        intro he
        have := subKey_injective k a mk he
        exact hnd.1 (this ▸ List.mem_map_of_mem Prod.fst hmem)
      simp [Values.lookup, hne, ih hnd.2 hmem]

theorem lookup_entries_none (k : String) (m : List (String × String)) (key : String)
    (h : ∀ mk ∈ m.map Prod.fst, key ≠ subKey k mk) :
    Values.lookup (m.map (fun kv => (subKey k kv.1, [kv.2]))) key = none := by
  induction m with
  | nil => rfl
  | cons kv rest ih =>
    obtain ⟨a, b⟩ := kv
    have hne : ¬ subKey k a = key := fun he => h a (by simp) he.symm
    have hrest : ∀ mk ∈ rest.map Prod.fst, key ≠ subKey k mk :=
      fun mk hmk => h mk (by simp only [List.map_cons, List.mem_cons]; exact Or.inr hmk)
    simp [Values.lookup, hne, ih hrest]

theorem mapURLValues_struct (L : GoLib) (fields : Fields) (target : Values)
    (parent : String) :
    mapURLValues L (.struct fields) target parent = mapFields L fields target parent := by
  simp [mapURLValues]

theorem nest_nonempty (parent tag : String) (h : parent ≠ "") :
    nest parent tag = subKey parent tag := by
  simp [nest, subKey, h]

theorem nest_empty (tag : String) : nest "" tag = tag := by
  simp [nest]

theorem subKey_ne_empty (k mk : String) : subKey k mk ≠ "" := by
  intro h
  have hl := congrArg String.length h
  have h1 : "[".length = 1 := by decide
  have h2 : "]".length = 1 := by decide
  have h3 : "".length = 0 := by decide
  simp only [subKey, String.length_append, h1, h2, h3] at hl
  omega

theorem mapField_scalar (L : GoLib) (field : StructField) (viaPtr : Bool) (v : Value)
    (text : String) (tag : String) (sendZero : Bool) (target : Values)
    (h : scalarText L v = some text) :
    mapField L field viaPtr v tag sendZero target =
      if v.eqZero && !sendZero then .ok target else store target tag text := by
  cases v <;> simp [scalarText] at h <;> subst h <;>
    simp [mapField, zeroCheck, Value.comparable]

theorem mapField_struct (L : GoLib) (field : StructField) (viaPtr : Bool) (inner : Fields)
    (tag : String) (sendZero : Bool) (target : Values)
    (hnz : zeroCheck (.struct inner) = .ok false) :
    mapField L field viaPtr (.struct inner) tag sendZero target =
      if field.Anonymous then mapFields L inner target "" else mapFields L inner target tag := by
  simp [mapField, hnz]

theorem mapFields_scalars (L : GoLib) (scope : String) (hscope : scope ≠ "")
    (inner : List (StructField × Value))
    (hs : ∀ gv ∈ inner, (scalarText L gv.2).isSome = true) (target : Values) :
    mapFields L (Fields.ofList inner) target scope = .ok (storeUnder L scope inner target) := by
  induction inner generalizing target with
  | nil => simp [Fields.ofList, mapFields_nil, storeUnder]
  | cons gv rest ih =>
    obtain ⟨field, v⟩ := gv
    have hv := hs (field, v) (by simp)
    have hrest : ∀ gv ∈ rest, (scalarText L gv.2).isSome = true :=
      fun gv hgv => hs gv (by simp [hgv])
    obtain ⟨text, htext⟩ := Option.isSome_iff_exists.mp hv
    simp only at htext
    by_cases hk : specKey L field = "-"
    · simp [Fields.ofList, mapFields_skip, hk, storeUnder, htext, ih hrest]
    · have hp : v.isPtr = false := by
        cases v <;> first | rfl | simp [scalarText] at htext
      rw [Fields.ofList, mapFields_value L field v _ _ _ hk hp,
        mapField_scalar L field false v text _ _ _ htext, nest_nonempty _ _ hscope]
      by_cases hz : (v.eqZero && !sendzero field) = true
      · simp [hz, Run.next, storeUnder, htext, hk, ih hrest]
      · by_cases ht : text = ""
        · simp [hz, Run.next, storeUnder, htext, hk, ih hrest, store, ht]
        · simp [hz, Run.next, storeUnder, htext, hk, ih hrest, store, ht]

theorem zeroCheck_struct (inner : Fields) (hc : inner.comparable = true)
    (hz : inner.eqZero = false) : zeroCheck (.struct inner) = .ok false := by
  simp [zeroCheck, Value.comparable, Value.eqZero, hc, hz]

theorem scalars_comparable (L : GoLib) (inner : List (StructField × Value))
    (hs : ∀ gv ∈ inner, (scalarText L gv.2).isSome = true) :
    (Fields.ofList inner).comparable = true := by
  induction inner with
  | nil => simp [Fields.ofList, Fields.comparable]
  | cons gv rest ih =>
    obtain ⟨field, v⟩ := gv
    have hv := hs (field, v) (by simp)
    have hrest : ∀ gv ∈ rest, (scalarText L gv.2).isSome = true :=
      fun gv hgv => hs gv (by simp [hgv])
    have : v.comparable = true := by
      cases v <;> first | rfl | simp [scalarText] at hv
    simp [Fields.ofList, Fields.comparable, this, ih hrest]

theorem Run.next_ok (r : Run) : r.next (fun target => .ok target) = r := by
  cases r <;> rfl

theorem eqZero_time_IsZero (t : Time) (h : Value.eqZero (.time t) = true) :
    t.IsZero = true := by
  simp only [Value.eqZero, Bool.and_eq_true, beq_iff_eq] at h
  obtain ⟨⟨h1, h2⟩, -⟩ := h
  simp [Time.IsZero, Time.sec, Time.nsec, h1, h2]

theorem mapField_time (L : GoLib) (field : StructField) (t : Time) (tag : String)
    (sendZero : Bool) (target : Values) :
    mapField L field false (.time t) tag sendZero target =
      .ok (if t.IsZero then target else target.Set tag (L.Format t)) := by
  cases hz : t.IsZero
  · have he : Value.eqZero (.time t) = false := by
      cases h : Value.eqZero (.time t)
      · rfl
      · rw [eqZero_time_IsZero t h] at hz
        cases hz
    simp [mapField, zeroCheck, Value.comparable, he, hz, store, L.Format_ne]
  · cases he : Value.eqZero (.time t) <;> cases sendZero <;>
      simp [mapField, zeroCheck, Value.comparable, he, hz, store]

theorem mapField_other (L : GoLib) (field : StructField) (viaPtr : Bool) (z : Bool)
    (tag : String) (sendZero : Bool) (target : Values) (h : z = false ∨ sendZero = true) :
    mapField L field viaPtr (.other true z) tag sendZero target =
      .error ⟨field, "unsupported type."⟩ target := by
  rcases h with h | h <;> subst h <;>
    simp [mapField, zeroCheck, Value.comparable, Value.eqZero]

theorem mapField_otherMap (L : GoLib) (field : StructField) (ks es : Bool) (len : Nat)
    (tag : String) (sendZero : Bool) (target : Values)
    (hty : ks = false ∨ es = false) (h : len ≠ 0 ∨ sendZero = true) :
    mapField L field false (.otherMap ks es len) tag sendZero target =
      .error ⟨field, "unsupported type. (only map[string]string supported for maps)"⟩
        target := by
  rcases hty with hty | hty <;> subst hty <;> rcases h with h | h <;>
    simp [mapField, zeroCheck, h]

theorem eqZero_scalar_text_ne (L : GoLib) (v : Value) (text : String)
    (ht : scalarText L v = some text) (hz : v.eqZero = true) (hnt : ∀ s, v ≠ .string s) :
    text ≠ "" := by
  cases v <;> simp [scalarText] at ht <;> subst ht
  · rename_i b
    cases b
    · decide
    · simp [Value.eqZero] at hz
  · rename_i i
    have hi : i = 0 := by simpa [Value.eqZero] using hz
    subst hi
    decide
  · rename_i n
    have hn : n = 0 := by simpa [Value.eqZero] using hz
    subst hn
    decide
  · exact L.FormatFloat_ne _ _
  · exact L.FormatFloat_ne _ _
  · rename_i s
    exact absurd rfl (hnt s)

theorem scalar_not_ptr (L : GoLib) (v : Value) (h : (scalarText L v).isSome = true) :
    v.isPtr = false := by
  cases v <;> first | rfl | simp [scalarText] at h

theorem mapFields_scalar_step (L : GoLib) (field : StructField) (v : Value) (text : String)
    (rest : Fields) (target : Values) (parent : String)
    (hk : specKey L field ≠ "-") (ht : scalarText L v = some text)
    (he : (v.eqZero && !sendzero field) = false) (hn : text ≠ "") :
    mapFields L (.cons field v rest) target parent =
      mapFields L rest (target.Set (nest parent (specKey L field)) text) parent := by
  have hp := scalar_not_ptr L v (by simp [ht])
  rw [mapFields_value L field v _ _ _ hk hp, mapField_scalar L field false v text _ _ _ ht]
  simp [he, store, hn, Run.next]

theorem Values.lookup_Set_self (target : Values) (key value : String) :
    (target.Set key value).lookup key = some [value] := by
  induction target with
  | nil => simp [Values.Set, Values.lookup]
  | cons kv rest ih =>
    obtain ⟨k, vs⟩ := kv
    by_cases h : k = key
    · simp [Values.Set, Values.lookup, h]
    · simp [Values.Set, Values.lookup, h, ih]

theorem mapField_struct_zero (L : GoLib) (field : StructField) (viaPtr : Bool)
    (inner : Fields) (tag : String) (target : Values)
    (hc : inner.comparable = true) (hz : inner.eqZero = true) :
    mapField L field viaPtr (.struct inner) tag false target = .ok target := by
  simp [mapField, zeroCheck, Value.comparable, Value.eqZero, hc, hz]

theorem mapField_struct_enter (L : GoLib) (field : StructField) (viaPtr : Bool)
    (inner : Fields) (tag : String) (sendZero : Bool) (target : Values)
    (hc : inner.comparable = true) (h : sendZero = true ∨ inner.eqZero = false) :
    mapField L field viaPtr (.struct inner) tag sendZero target =
      if field.Anonymous then mapFields L inner target "" else mapFields L inner target tag := by
  rcases h with h | h
  · subst h
    simp [mapField, zeroCheck, Value.comparable, hc]
  · exact mapField_struct L field viaPtr inner tag sendZero target (zeroCheck_struct inner hc h)

theorem bool_field_step (L : GoLib) (field : StructField) (hk : specKey L field ≠ "-")
    (hs : sendzero field = true) :
    MapURLValues L (record [(field, .bool false)]) =
      .returned (some [(specKey L field, ["false"])]) none := by
  simp only [MapURLValues, mapURLValues_struct, record, Fields.ofList]
  rw [mapFields_scalar_step L field (.bool false) "false" _ _ _ hk rfl (by simp [hs])
    (by decide), mapFields_nil, nest_empty]
  simp [Values.Set]

theorem int_field_step (L : GoLib) (field : StructField) (hk : specKey L field ≠ "-")
    (hs : sendzero field = true) :
    MapURLValues L (record [(field, .int 0)]) =
      .returned (some [(specKey L field, ["0"])]) none := by
  simp only [MapURLValues, mapURLValues_struct, record, Fields.ofList]
  rw [mapFields_scalar_step L field (.int 0) "0" _ _ _ hk rfl (by simp [hs])
    (by decide), mapFields_nil, nest_empty]
  simp [Values.Set]

/-! ## Decimal text -/

theorem digitValue_digitChar (d : Nat) (h : d < 10) :
    digitValue (Nat.digitChar d) = some d ∧ (d ≠ 0 → Nat.digitChar d ≠ '0') := by
  interval_cases d <;> exact ⟨by decide, by decide⟩

theorem parseDigits_append (l : List Char) (c : Char) (acc : Nat) :
    parseDigits (l ++ [c]) acc = (parseDigits l acc).bind (fun a => parseDigits [c] a) := by
  induction l generalizing acc with
  | nil => rfl
  | cons x xs ih =>
    simp only [List.cons_append, parseDigits]
    cases digitValue x with
    | none => rfl
    | some d => exact ih _

theorem toDigitsCore_spec (fuel : Nat) : ∀ (n : Nat) (ds : List Char), n < fuel →
    ∃ l, Nat.toDigitsCore 10 fuel n ds = l ++ ds ∧
      (∀ acc, parseDigits l acc = some (acc * 10 ^ l.length + n)) ∧
      l.all (fun c => (digitValue c).isSome) = true ∧
      (∃ c cs, l = c :: cs ∧ (n ≠ 0 → c ≠ '0')) := by
  induction fuel with
  | zero => intro n ds h; omega
  | succ fuel ih =>
    intro n ds hlt
    have hd := digitValue_digitChar (n % 10) (Nat.mod_lt _ (by decide))
    by_cases hq : n / 10 = 0
    · refine ⟨[Nat.digitChar (n % 10)], by simp [Nat.toDigitsCore, hq], ?_, ?_, ?_⟩
      · intro acc
        have hn : n % 10 = n := Nat.mod_eq_of_lt (by omega)
        simp only [parseDigits, hd.1, List.length_singleton, pow_one]
        rw [hn]
      · simp [hd.1]
      · refine ⟨_, [], rfl, fun hn => hd.2 ?_⟩
        have : n % 10 = n := Nat.mod_eq_of_lt (by omega)
        omega
    · obtain ⟨l, hl, hparse, hall, c, cs, hcs, hc⟩ :=
        ih (n / 10) (Nat.digitChar (n % 10) :: ds) (by omega)
      refine ⟨l ++ [Nat.digitChar (n % 10)], by simp [Nat.toDigitsCore, hq, hl], ?_, ?_, ?_⟩
      · intro acc
        rw [parseDigits_append, hparse]
        simp only [Option.bind, parseDigits, hd.1, List.length_append, List.length_singleton]
        congr 1
        have := Nat.div_add_mod n 10
        rw [pow_succ]
        nlinarith [Nat.div_add_mod n 10]
      · simp [List.all_append, hall, hd.1]
      · exact ⟨c, cs ++ [Nat.digitChar (n % 10)], by simp [hcs], fun _ => hc hq⟩

theorem repr_spec (n : Nat) :
    ∃ c cs, (Nat.repr n).data = c :: cs ∧ parseDigits (c :: cs) 0 = some n ∧
      (digitValue c).isSome = true ∧
      (n ≠ 0 → canonicalDigits (c :: cs) = true) := by
  obtain ⟨l, hl, hparse, hall, c, cs, hcs, hc⟩ := toDigitsCore_spec (n + 1) n [] (by omega)
  have hdata : (Nat.repr n).data = l := by
    simp [Nat.repr, Nat.toDigits, hl, List.asString]
  subst hcs
  refine ⟨c, cs, hdata, by simpa using hparse 0, ?_, ?_⟩
  · simp only [List.all_cons, Bool.and_eq_true] at hall
    exact hall.1
  · intro hn
    simp only [canonicalDigits, hall, Bool.true_and]
    exact decide_eq_true (hc hn)

theorem digit_ne_minus (c : Char) (h : (digitValue c).isSome = true) : c ≠ '-' := by
  intro hc
  subst hc
  exact absurd h (by decide)

theorem FormatUint_spec (n : Nat) :
    ParseUint (FormatUint n) = some n ∧ FormatUint n ≠ "" ∧
      (n ≠ 0 → canonicalDigits (FormatUint n).data = true) := by
  obtain ⟨c, cs, hdata, hparse, -, hcanon⟩ := repr_spec n
  refine ⟨by simp [ParseUint, FormatUint, hdata, hparse], ?_, ?_⟩
  · intro h
    have := congrArg String.data h
    simp [FormatUint, hdata] at this
  · intro hn
    simpa [FormatUint, hdata] using hcanon hn

theorem FormatInt_spec (v : Int) :
    ParseInt (FormatInt v) = some v ∧ FormatInt v ≠ "" ∧
      (0 < v → canonicalDigits (FormatInt v).data = true) ∧
      (v < 0 → ∃ cs, (FormatInt v).data = '-' :: cs ∧ canonicalDigits cs = true) := by
  cases v with
  | ofNat m =>
    obtain ⟨c, cs, hdata, hparse, hdigit, hcanon⟩ := repr_spec m
    have hc := digit_ne_minus c hdigit
    refine ⟨by simp [ParseInt, FormatInt, hdata, hparse, hc], ?_, ?_, ?_⟩
    · intro h
      have := congrArg String.data h
      simp [FormatInt, hdata] at this
    · intro hpos
      have hm : m ≠ 0 := by
        intro h0
        subst h0
        simp at hpos
      simpa [FormatInt, hdata] using hcanon hm
    · intro hneg
      exact absurd hneg (by simp [Int.ofNat_eq_coe])
  | negSucc m =>
    obtain ⟨c, cs, hdata, hparse, hdigit, hcanon⟩ := repr_spec (m + 1)
    have hd : (FormatInt (Int.negSucc m)).data = '-' :: c :: cs := by
      simp [FormatInt, String.data_append, hdata]
    refine ⟨?_, ?_, ?_, ?_⟩
    · simp only [ParseInt, hd, if_true, hparse, Option.map_some']
      rfl
    · intro h
      have := congrArg String.data h
      simp [hd] at this
    · intro hpos
      exact absurd hpos (by simp [Int.negSucc_lt_zero, not_lt, le_of_lt])
    · intro _
      exact ⟨c :: cs, hd, hcanon (by omega)⟩

/-! ## Invariant of the parameter set -/

theorem Value.mutualInduction {P : Value → Prop} {Q : Fields → Prop}
    (hleaf : ∀ v, (∀ fs, v ≠ .struct fs) → (∀ w, v ≠ .ptrTo w) → P v)
    (hstruct : ∀ fs, Q fs → P (.struct fs))
    (hptr : ∀ w, P w → P (.ptrTo w))
    (hnil : Q .nil)
    (hcons : ∀ field v rest, P v → Q rest → Q (.cons field v rest)) :
    (∀ v, P v) ∧ (∀ fs, Q fs) := by
  have leaf : ∀ v, (∀ fs, v ≠ .struct fs) → (∀ w, v ≠ .ptrTo w) → P v := hleaf
  constructor
  · intro v
    exact @Value.rec P Q
      (fun _ => leaf _ (fun _ h => by cases h) (fun _ h => by cases h))
      (fun _ => leaf _ (fun _ h => by cases h) (fun _ h => by cases h))
      (fun _ => leaf _ (fun _ h => by cases h) (fun _ h => by cases h))
      (fun _ => leaf _ (fun _ h => by cases h) (fun _ h => by cases h))
      (fun _ => leaf _ (fun _ h => by cases h) (fun _ h => by cases h))
      (fun _ => leaf _ (fun _ h => by cases h) (fun _ h => by cases h))
      (fun _ => leaf _ (fun _ h => by cases h) (fun _ h => by cases h))
      (fun _ _ _ => leaf _ (fun _ h => by cases h) (fun _ h => by cases h))
      (fun _ => leaf _ (fun _ h => by cases h) (fun _ h => by cases h))
      (fun fs ih => hstruct fs ih)
      (leaf _ (fun _ h => by cases h) (fun _ h => by cases h))
      (fun w ih => hptr w ih)
      (fun _ _ => leaf _ (fun _ h => by cases h) (fun _ h => by cases h))
      hnil
      (fun field v rest ihv ihrest => hcons field v rest ihv ihrest)
      v
  · intro fs
    exact @Fields.rec P Q
      (fun _ => leaf _ (fun _ h => by cases h) (fun _ h => by cases h))
      (fun _ => leaf _ (fun _ h => by cases h) (fun _ h => by cases h))
      (fun _ => leaf _ (fun _ h => by cases h) (fun _ h => by cases h))
      (fun _ => leaf _ (fun _ h => by cases h) (fun _ h => by cases h))
      (fun _ => leaf _ (fun _ h => by cases h) (fun _ h => by cases h))
      (fun _ => leaf _ (fun _ h => by cases h) (fun _ h => by cases h))
      (fun _ => leaf _ (fun _ h => by cases h) (fun _ h => by cases h))
      (fun _ _ _ => leaf _ (fun _ h => by cases h) (fun _ h => by cases h))
      (fun _ => leaf _ (fun _ h => by cases h) (fun _ h => by cases h))
      (fun fs ih => hstruct fs ih)
      (leaf _ (fun _ h => by cases h) (fun _ h => by cases h))
      (fun w ih => hptr w ih)
      (fun _ _ => leaf _ (fun _ h => by cases h) (fun _ h => by cases h))
      hnil
      (fun field v rest ihv ihrest => hcons field v rest ihv ihrest)
      fs

theorem Values.Inv_Set (allowed : String → Prop) (target : Values) (key value : String)
    (h : Values.Inv allowed target) (hv : value = "" → allowed key) :
    Values.Inv allowed (target.Set key value) := by
  induction target with
  | nil =>
    intro kv hkv
    simp only [Values.Set, List.mem_singleton] at hkv
    subst hkv
    exact ⟨value, rfl, hv⟩
  | cons x rest ih =>
    obtain ⟨k, vs⟩ := x
    have hrest : Values.Inv allowed rest := fun kv hkv => h kv (List.mem_cons_of_mem _ hkv)
    intro kv hkv
    by_cases hk : k = key
    · simp only [Values.Set, hk, if_true, List.mem_cons] at hkv
      rcases hkv with hkv | hkv
      · subst hkv
        exact ⟨value, rfl, hv⟩
      · exact hrest kv hkv
    · simp only [Values.Set, hk, if_false, List.mem_cons] at hkv
      rcases hkv with hkv | hkv
      · subst hkv
        exact h (k, vs) (List.mem_cons_self _ _)
      · exact ih hrest kv hkv

theorem Values.Inv_setEntries (allowed : String → Prop) (tag : String)
    (m : List (String × String)) (target : Values) (h : Values.Inv allowed target)
    (hq : ∀ mk, (mk, "") ∈ m → allowed (subKey tag mk)) :
    Values.Inv allowed (setEntries tag m target) := by
  induction m generalizing target with
  | nil => exact h
  | cons kv rest ih =>
    obtain ⟨mk, mv⟩ := kv
    refine ih _ (Values.Inv_Set allowed target _ mv h ?_)
      (fun mk2 hmem => hq mk2 (List.mem_cons_of_mem _ hmem))
    intro hmv
    subst hmv
    exact hq mk (List.mem_cons_self _ _)

theorem Values.Inv_store (allowed : String → Prop) (target out : Values) (tag text : String)
    (h : Values.Inv allowed target) (hs : store target tag text = .ok out) :
    Values.Inv allowed out := by
  by_cases ht : text = ""
  · simp [store, ht] at hs
    subst hs
    exact h
  · simp [store, ht] at hs
    subst hs
    exact Values.Inv_Set allowed target tag text h (fun e => absurd e ht)

theorem Run.next_eq_ok (r : Run) (k : Values → Run) (out : Values)
    (h : r.next k = .ok out) : ∃ mid, r = .ok mid ∧ k mid = .ok out := by
  cases r with
  | ok mid => exact ⟨mid, rfl, h⟩
  | error e t => simp [Run.next] at h
  | panic c => simp [Run.next] at h

theorem Values.lookup_mem (vals : Values) (key : String) (vs : List String)
    (h : vals.lookup key = some vs) : (key, vs) ∈ vals := by
  induction vals with
  | nil => simp [Values.lookup] at h
  | cons kv rest ih =>
    obtain ⟨k, ws⟩ := kv
    by_cases hk : k = key
    · simp [Values.lookup, hk] at h
      simp [hk, h]
    · simp [Values.lookup, hk] at h
      exact List.mem_cons_of_mem _ (ih h)

theorem mapField_leaf_inv (L : GoLib) (allowed : String → Prop) (v : Value)
    (hs : ∀ fs, v ≠ .struct fs) (field : StructField) (viaPtr : Bool) (tag : String)
    (sz : Bool) (target out : Values) (hinv : Values.Inv allowed target)
    (hq : ∀ mk, (mk, "") ∈ v.mapEntries → ∀ k, allowed (subKey k mk))
    (h : mapField L field viaPtr v tag sz target = .ok out) : Values.Inv allowed out := by
  have scalar : ∀ text, scalarText L v = some text → Values.Inv allowed out := by
    intro text ht
    rw [mapField_scalar L field viaPtr v text _ _ _ ht] at h
    split at h
    · cases h
      exact hinv
    · exact Values.Inv_store allowed target out tag text hinv h
  cases v with
  | bool b => exact scalar _ rfl
  | int i => exact scalar _ rfl
  | uint n => exact scalar _ rfl
  | float32 bits => exact scalar _ rfl
  | float64 bits => exact scalar _ rfl
  | string s => exact scalar _ rfl
  | stringMap m =>
    simp only [mapField, zeroCheck] at h
    split at h
    · cases h
      exact hinv
    · cases viaPtr
      · simp only [Bool.false_eq_true, if_false, Run.ok.injEq] at h
        subst h
        exact Values.Inv_setEntries allowed tag m target hinv (fun mk hmem => hq mk hmem tag)
      · simp at h
  | otherMap ks es len =>
    simp only [mapField, zeroCheck] at h
    split at h
    · cases h
      exact hinv
    · cases viaPtr <;> cases ks <;> cases es <;> simp at h
  | time t =>
    simp only [mapField, zeroCheck, Value.comparable, if_true] at h
    split at h
    · cases h
      exact hinv
    · cases viaPtr
      · simp only [Bool.not_false, if_true] at h
        split at h
        · exact Values.Inv_store allowed target out tag _ hinv h
        · exact Values.Inv_store allowed target out tag _ hinv h
      · simp at h
  | struct fs => exact absurd rfl (hs fs)
  | nilPtr =>
    simp only [mapField, zeroCheck, Value.comparable, if_true] at h
    split at h
    · cases h
      exact hinv
    · cases h
  | ptrTo w =>
    simp only [mapField, zeroCheck, Value.comparable, if_true] at h
    split at h
    · cases h
      exact hinv
    · cases h
  | other c z =>
    simp only [mapField, zeroCheck, Value.comparable] at h
    cases c
    · simp at h
    · simp only [if_true] at h
      split at h
      · cases h
        exact hinv
      · cases h

theorem mapFields_inv (L : GoLib) (allowed : String → Prop) :
    ∀ (fs : Fields) (target : Values) (parent : String) (out : Values),
      Values.Inv allowed target →
      (∀ mk, (mk, "") ∈ fs.mapEntries → ∀ k, allowed (subKey k mk)) →
      mapFields L fs target parent = .ok out → Values.Inv allowed out := by
  refine (Value.mutualInduction
    (P := fun v => ∀ w, (w = v ∨ v = .ptrTo w) →
      ∀ (field : StructField) (viaPtr : Bool) (tag : String) (sz : Bool)
        (target out : Values), Values.Inv allowed target →
        (∀ mk, (mk, "") ∈ w.mapEntries → ∀ k, allowed (subKey k mk)) →
        mapField L field viaPtr w tag sz target = .ok out → Values.Inv allowed out)
    (Q := fun fs => ∀ (target : Values) (parent : String) (out : Values),
      Values.Inv allowed target →
      (∀ mk, (mk, "") ∈ fs.mapEntries → ∀ k, allowed (subKey k mk)) →
      mapFields L fs target parent = .ok out → Values.Inv allowed out)
    ?_ ?_ ?_ ?_ ?_).2
  · intro v hs hp w hw field viaPtr tag sz target out hinv hq h
    rcases hw with hw | hw
    · subst hw
      exact mapField_leaf_inv L allowed w hs field viaPtr tag sz target out hinv hq h
    · exact absurd hw (hp w)
  · intro fs ih w hw field viaPtr tag sz target out hinv hq h
    rcases hw with hw | hw
    · subst hw
      cases hc : fs.comparable
      · simp [mapField, zeroCheck, Value.comparable, hc] at h
      · cases hz : fs.eqZero <;> cases sz
        · rw [mapField_struct_enter L field viaPtr fs tag _ target hc (Or.inr hz)] at h
          split at h
          · exact ih target "" out hinv hq h
          · exact ih target tag out hinv hq h
        · rw [mapField_struct_enter L field viaPtr fs tag _ target hc (Or.inl rfl)] at h
          split at h
          · exact ih target "" out hinv hq h
          · exact ih target tag out hinv hq h
        · rw [mapField_struct_zero L field viaPtr fs tag target hc hz] at h
          cases h
          exact hinv
        · rw [mapField_struct_enter L field viaPtr fs tag _ target hc (Or.inl rfl)] at h
          split at h
          · exact ih target "" out hinv hq h
          · exact ih target tag out hinv hq h
    · cases hw
  · intro w0 ih w hw field viaPtr tag sz target out hinv hq h
    rcases hw with hw | hw
    · subst hw
      exact mapField_leaf_inv L allowed (.ptrTo w0) (fun _ e => by cases e) field viaPtr tag sz
        target out hinv hq h
    · have hw2 : w0 = w := by injection hw
      subst hw2
      exact ih w0 (Or.inl rfl) field viaPtr tag sz target out hinv hq h
  · intro target parent out hinv _ h
    rw [mapFields_nil] at h
    cases h
    exact hinv
  · intro field v rest ihv ihrest target parent out hinv hq h
    have hqrest : ∀ mk, (mk, "") ∈ rest.mapEntries → ∀ k, allowed (subKey k mk) :=
      fun mk hm => hq mk (by simp [Fields.mapEntries, hm])
    by_cases hk : specKey L field = "-"
    · rw [mapFields_skip L field v rest target parent hk] at h
      exact ihrest target parent out hinv hqrest h
    · cases hv : v.isPtr
      · rw [mapFields_value L field v rest target parent hk hv] at h
        obtain ⟨mid, h1, h2⟩ := Run.next_eq_ok _ _ _ h
        have hmid := ihv v (Or.inl rfl) field false _ _ target mid hinv
          (fun mk hm => hq mk (by simp [Fields.mapEntries, hm])) h1
        exact ihrest mid parent out hmid hqrest h2
      · cases v with
        | nilPtr =>
          rw [mapFields_nilPtr] at h
          exact ihrest target parent out hinv hqrest h
        | ptrTo w =>
          rw [mapFields_ptrTo L field w rest target parent hk] at h
          obtain ⟨mid, h1, h2⟩ := Run.next_eq_ok _ _ _ h
          have hmid := ihv w (Or.inr rfl) field true _ _ target mid hinv
            (fun mk hm => hq mk (by simp [Fields.mapEntries, Value.mapEntries, hm])) h1
          exact ihrest mid parent out hmid hqrest h2
        | _ => simp [Value.isPtr] at hv

/-! ## The claims -/

/-- C1 (the failing input): the all-zero record whose one field `Inner` is a nested
struct holding an empty `map[string]string` does not flatten to the empty parameter set:
the zero check compares the nested struct with `==` and the run panics. -/
theorem zero_record_with_nested_map_panics (L : GoLib) :
    MapURLValues L
      (record [(⟨"Inner", "", "inner", false⟩,
        record [(⟨"M", "", "m", false⟩, .stringMap [])])]) =
      .panicked .uncomparable := by
  simp [MapURLValues, mapURLValues, record, Fields.ofList, mapFields_value, specKey, queryName,
    Value.isPtr, mapField, zeroCheck, Value.comparable, Fields.comparable, Run.next]

/-- C2: a field of the record whose candidate key is the skip sentinel "-", through the
name of the `query` directive or through the `json` annotation when that name is empty,
contributes nothing whatever its value, kind and options: `MapURLValues` returns the same
outcome (parameter set, error or panic) as for the record without the field, for a
record passed by value and for one passed by pointer. -/
theorem skip_field_contributes_nothing (L : GoLib) (pre post : List (StructField × Value))
    (field : StructField) (v : Value)
    (h : queryName field = "-" ∨ (queryName field = "" ∧ field.json = "-")) :
    MapURLValues L (record (pre ++ (field, v) :: post)) =
        MapURLValues L (record (pre ++ post)) ∧
      MapURLValues L (.ptrTo (record (pre ++ (field, v) :: post))) =
        MapURLValues L (.ptrTo (record (pre ++ post))) := by
  have hk := specKey_skip L field h
  constructor <;>
    simp only [MapURLValues, mapURLValues, record, Fields.ofList_append, mapFields_append,
      Fields.ofList, mapFields_skip L field v _ _ _ hk]

/-- C2, at a record whose skipped field is of an unsupported kind and carries
`sendzero`. -/
theorem skip_field_contributes_nothing_witness :
    (queryName ⟨"C", "-,sendzero", "c", false⟩ = "-" ∨
        (queryName ⟨"C", "-,sendzero", "c", false⟩ = "" ∧
          (⟨"C", "-,sendzero", "c", false⟩ : StructField).json = "-")) ∧
      MapURLValues sampleLib
        (record ([(⟨"A", "a", "", false⟩, .int 7)] ++
          (⟨"C", "-,sendzero", "c", false⟩, .other true false) ::
            [(⟨"B", "b", "", false⟩, .string "x")])) =
        MapURLValues sampleLib
          (record ([(⟨"A", "a", "", false⟩, .int 7)] ++ [(⟨"B", "b", "", false⟩, .string "x")])) :=
  ⟨by decide, (skip_field_contributes_nothing sampleLib _ _ _ _ (by decide)).1⟩

/-- C3: a record of one boolean field with resolved key `k` flattens to exactly
`k -> ["true"]` when the value is true, to exactly `k -> ["false"]` when it is false
and the field carries `sendzero`, and to the empty parameter set when it is false
without `sendzero`. -/
theorem bool_field_entries (L : GoLib) (field : StructField) (b : Bool)
    (hk : specKey L field ≠ "-") :
    MapURLValues L (record [(field, .bool b)]) =
      .returned
        (some (if b then [(specKey L field, ["true"])]
          else if sendzero field then [(specKey L field, ["false"])] else []))
        none := by
  have hn : nest "" (specKey L field) = specKey L field := by simp [nest]
  simp only [MapURLValues, mapURLValues, record, Fields.ofList]
  rw [mapFields_value L field (.bool b) _ _ _ hk rfl, mapField_bool, hn]
  cases b <;> cases sendzero field <;> simp [Run.next, mapFields_nil, Values.Set]

/-- C3, at the three cases of the claim for the key `flag`. -/
theorem bool_field_entries_witness :
    MapURLValues sampleLib (record [(⟨"Flag", "", "", false⟩, .bool true)]) =
        .returned (some [("flag", ["true"])]) none ∧
      MapURLValues sampleLib (record [(⟨"Flag", ",sendzero", "", false⟩, .bool false)]) =
        .returned (some [("flag", ["false"])]) none ∧
      MapURLValues sampleLib (record [(⟨"Flag", "", "", false⟩, .bool false)]) =
        .returned (some []) none :=
  ⟨(bool_field_entries sampleLib ⟨"Flag", "", "", false⟩ true (by decide)).trans (by decide),
   (bool_field_entries sampleLib ⟨"Flag", ",sendzero", "", false⟩ false (by decide)).trans
     (by decide),
   (bool_field_entries sampleLib ⟨"Flag", "", "", false⟩ false (by decide)).trans (by decide)⟩

/-- C10: the candidate key the loop computes is the one the priority rule gives: the name
part of the `query` directive (the text before its first comma) when it is not empty,
otherwise the `json` annotation when it is not empty, otherwise the identifier in lower
case. -/
theorem candidate_key_priority (L : GoLib) (field : StructField) :
    (candidate L field).1 =
      if queryName field ≠ "" then queryName field
      else if field.json ≠ "" then field.json
      else L.ToLower field.Name :=
  candidate_fst L field

/-- C4: a record whose only field is a `map[string]string` value `m` (each key once) with
resolved key `k` flattens to one entry `k[mk] -> [m[mk]]` for every key `mk` of `m`, in the
order the map is visited, and to nothing else: every key of that form is bound to the
single value of the map, every other key is absent, and so is the bare key `k`. -/
theorem string_map_entries (L : GoLib) (field : StructField) (m : List (String × String))
    (hk : specKey L field ≠ "-") (hnd : (m.map Prod.fst).Nodup) :
    ∃ vals, MapURLValues L (record [(field, .stringMap m)]) = .returned (some vals) none ∧
      vals = m.map (fun kv => (subKey (specKey L field) kv.1, [kv.2])) ∧
      (∀ mk mv, (mk, mv) ∈ m → vals.lookup (subKey (specKey L field) mk) = some [mv]) ∧
      (∀ key, (∀ mk ∈ m.map Prod.fst, key ≠ subKey (specKey L field) mk) →
        vals.lookup key = none) ∧
      vals.lookup (specKey L field) = none := by
  refine ⟨m.map (fun kv => (subKey (specKey L field) kv.1, [kv.2])), ?_, rfl,
    lookup_entries _ m hnd, lookup_entries_none _ m, ?_⟩
  · have hn : nest "" (specKey L field) = specKey L field := by simp [nest]
    have hfresh : ∀ mk ∈ m.map Prod.fst,
        subKey (specKey L field) mk ∉ ([] : Values).map Prod.fst := by simp
    have hs := setEntries_fresh (specKey L field) m [] hnd hfresh
    simp only [MapURLValues, mapURLValues, record, Fields.ofList]
    rw [mapFields_value L field (.stringMap m) _ _ _ hk rfl, hn]
    cases m with
    | nil => cases sendzero field <;> simp [mapField, zeroCheck, setEntries, Run.next, mapFields_nil]
    | cons kv rest =>
      simp only [List.nil_append] at hs
      simp [mapField, zeroCheck, Run.next, mapFields_nil, hs]
  · exact lookup_entries_none _ m _ (fun mk _ h => subKey_ne_self _ mk h.symm)

/-- C4, at the map with the entries a = 1 and b = 2 under the key `meta`. -/
theorem string_map_entries_witness :
    ∃ vals,
      MapURLValues sampleLib
          (record [(⟨"Meta", "meta", "", false⟩, .stringMap [("a", "1"), ("b", "2")])]) =
        .returned (some vals) none ∧
      vals = [("meta[a]", ["1"]), ("meta[b]", ["2"])] ∧
      vals.lookup "meta" = none := by
  obtain ⟨vals, h1, h2, -, -, h3⟩ :=
    string_map_entries sampleLib ⟨"Meta", "meta", "", false⟩ [("a", "1"), ("b", "2")]
      (by decide) (by decide)
  exact ⟨vals, h1, h2.trans (by decide), h3.trans (by decide)⟩

/-- C5: a non-zero nested record field that is not embedded, with resolved key `p`,
flattens its inner fields in the scope `p` when the record is at the top and `par[p]`
inside a scope `par`; there the entry of a scalar inner field with own name `n` is stored
under `p[n]`, and one more level of nesting, through a field `q`, stores it under
`p[q][n]`. -/
theorem nested_record_keys (L : GoLib) (outer mid : StructField)
    (inner : List (StructField × Value))
    (hp : specKey L outer ≠ "-") (hp2 : specKey L outer ≠ "") (ho : outer.Anonymous = false)
    (hq : specKey L mid ≠ "-") (hm : mid.Anonymous = false)
    (hs : ∀ gv ∈ inner, (scalarText L gv.2).isSome = true)
    (hnz : (Fields.ofList inner).eqZero = false) :
    (∀ fs rest target parent, zeroCheck (.struct fs) = .ok false →
      mapFields L (.cons outer (.struct fs) rest) target parent =
        (mapURLValues L (.struct fs) target (nest parent (specKey L outer))).next
          (fun target => mapFields L rest target parent)) ∧
      MapURLValues L (record [(outer, record inner)]) =
        .returned (some (storeUnder L (specKey L outer) inner [])) none ∧
      MapURLValues L (record [(outer, record [(mid, record inner)])]) =
        .returned
          (some (storeUnder L (specKey L outer ++ "[" ++ specKey L mid ++ "]") inner []))
          none := by
  have hstep : ∀ (g : StructField) fs rest target parent, specKey L g ≠ "-" →
      g.Anonymous = false → zeroCheck (.struct fs) = .ok false →
      mapFields L (.cons g (.struct fs) rest) target parent =
        (mapURLValues L (.struct fs) target (nest parent (specKey L g))).next
          (fun target => mapFields L rest target parent) := by
    intro g fs rest target parent hg ha hfs
    rw [mapFields_value L g (.struct fs) _ _ _ hg rfl, mapField_struct L g _ _ _ _ _ hfs,
      mapURLValues_struct]
    simp [ha]
  have hin : zeroCheck (.struct (Fields.ofList inner)) = .ok false :=
    zeroCheck_struct _ (scalars_comparable L inner hs) hnz
  have hmidz : zeroCheck (.struct (Fields.ofList [(mid, record inner)])) = .ok false := by
    apply zeroCheck_struct
    · simp [Fields.ofList, Fields.comparable, record, Value.comparable,
        scalars_comparable L inner hs]
    · simp [Fields.ofList, Fields.eqZero, record, Value.eqZero, hnz]
  refine ⟨fun fs rest target parent hfs => hstep outer fs rest target parent hp ho hfs, ?_, ?_⟩
  · simp only [MapURLValues, mapURLValues_struct, record, Fields.ofList]
    rw [hstep outer _ _ _ _ hp ho hin, nest_empty, mapURLValues_struct,
      mapFields_scalars L _ hp2 inner hs]
    simp [Run.next, mapFields_nil]
  · simp only [MapURLValues, mapURLValues_struct, record, Fields.ofList]
    simp only [record, Fields.ofList] at hmidz
    rw [hstep outer _ _ _ _ hp ho hmidz, nest_empty, mapURLValues_struct,
      hstep mid _ _ _ _ hq hm hin, nest_nonempty _ _ hp2, mapURLValues_struct,
      mapFields_scalars L _ (subKey_ne_empty _ _) inner hs]
    simp [Run.next, mapFields_nil, subKey]

/-- C5, at the field `card` whose inner field `name` holds John, alone and inside an
enclosing field `customer`. -/
theorem nested_record_keys_witness :
    MapURLValues sampleLib
        (record [(⟨"Card", "card", "", false⟩,
          record [(⟨"Name", "name", "", false⟩, .string "John")])]) =
      .returned (some [("card[name]", ["John"])]) none ∧
    MapURLValues sampleLib
        (record [(⟨"Customer", "customer", "", false⟩,
          record [(⟨"Card", "card", "", false⟩,
            record [(⟨"Name", "name", "", false⟩, .string "John")])])]) =
      .returned (some [("customer[card][name]", ["John"])]) none :=
  ⟨((nested_record_keys sampleLib ⟨"Card", "card", "", false⟩ ⟨"Card", "card", "", false⟩
      [(⟨"Name", "name", "", false⟩, .string "John")]
      (by decide) (by decide) rfl (by decide) rfl (by decide) (by decide)).2.1).trans
      (by decide),
   ((nested_record_keys sampleLib ⟨"Customer", "customer", "", false⟩
      ⟨"Card", "card", "", false⟩ [(⟨"Name", "name", "", false⟩, .string "John")]
      (by decide) (by decide) rfl (by decide) rfl (by decide) (by decide)).2.2).trans
      (by decide)⟩

/-- C6: a non-zero embedded record field contributes what `mapURLValues` produces for
its value with the empty parent, whatever the key of the embedded field and whatever
scope `parent` the enclosing record is flattened in; a record of one embedded field
flattens to what the embedded value flattens to on its own. -/
theorem embedded_record_scope (L : GoLib) (field : StructField) (inner rest : Fields)
    (target : Values) (parent : String)
    (hk : specKey L field ≠ "-") (ha : field.Anonymous = true)
    (hnz : zeroCheck (.struct inner) = .ok false) :
    mapFields L (.cons field (.struct inner) rest) target parent =
        (mapURLValues L (.struct inner) target "").next
          (fun target => mapFields L rest target parent) ∧
      MapURLValues L (.struct (.cons field (.struct inner) .nil)) =
        MapURLValues L (.struct inner) := by
  have hstep : ∀ rest target parent,
      mapFields L (.cons field (.struct inner) rest) target parent =
        (mapURLValues L (.struct inner) target "").next
          (fun target => mapFields L rest target parent) := by
    intro rest target parent
    rw [mapFields_value L field (.struct inner) _ _ _ hk rfl,
      mapField_struct L field _ _ _ _ _ hnz, mapURLValues_struct]
    simp [ha]
  refine ⟨hstep rest target parent, ?_⟩
  simp only [MapURLValues, mapURLValues_struct]
  rw [hstep]
  simp only [mapFields_nil, Run.next_ok, mapURLValues_struct]

/-- C6, at an embedded record with the field `x` inside a record that is flattened in
the scope `p`: the entry is stored under `x`, not under `p[x]` or `p[embedded][x]`. -/
theorem embedded_record_scope_witness :
    mapFields sampleLib
        (.cons ⟨"Embedded", "", "", true⟩
          (.struct (.cons ⟨"X", "", "", false⟩ (.string "v") .nil)) .nil) [] "p" =
      .ok [("x", ["v"])] :=
  ((embedded_record_scope sampleLib ⟨"Embedded", "", "", true⟩
      (.cons ⟨"X", "", "", false⟩ (.string "v") .nil) .nil [] "p"
      (by decide) rfl rfl).1).trans (by decide)

/-- C7: a timestamp field with resolved key `k` stores nothing when the timestamp is the
zero instant (`IsZero`), with or without `sendzero` and whatever its location; otherwise
it stores exactly `k -> [t.Format(RFC3339Nano)]`. Stated for the step of the loop and
for the record of one timestamp field. -/
theorem time_field_entry (L : GoLib) (field : StructField) (t : Time) (rest : Fields)
    (target : Values) (parent : String) (hk : specKey L field ≠ "-") :
    mapFields L (.cons field (.time t) rest) target parent =
        mapFields L rest
          (if t.IsZero then target
            else target.Set (nest parent (specKey L field)) (L.Format t))
          parent ∧
      MapURLValues L (record [(field, .time t)]) =
        .returned (some (if t.IsZero then [] else [(specKey L field, [L.Format t])])) none := by
  have hstep : ∀ rest target parent,
      mapFields L (.cons field (.time t) rest) target parent =
        mapFields L rest
          (if t.IsZero then target
            else target.Set (nest parent (specKey L field)) (L.Format t))
          parent := by
    intro rest target parent
    rw [mapFields_value L field (.time t) _ _ _ hk rfl, mapField_time]
    simp [Run.next]
  refine ⟨hstep rest target parent, ?_⟩
  simp only [MapURLValues, mapURLValues_struct, record, Fields.ofList]
  rw [hstep, mapFields_nil, nest_empty]
  cases t.IsZero <;> simp [Values.Set]

/-- C7, at the zero instant carrying a location in a field with `sendzero`, and at a
non-zero instant. -/
theorem time_field_entry_witness :
    MapURLValues sampleLib
        (record [(⟨"Created", "created,sendzero", "", false⟩, .time ⟨0, 0, some 1⟩)]) =
      .returned (some []) none ∧
    MapURLValues sampleLib (record [(⟨"Created", "created", "", false⟩, .time ⟨0, 5, none⟩)]) =
      .returned (some [("created", ["T0"])]) none :=
  ⟨((time_field_entry sampleLib ⟨"Created", "created,sendzero", "", false⟩ ⟨0, 0, some 1⟩
      .nil [] "" (by decide)).2).trans (by decide),
   ((time_field_entry sampleLib ⟨"Created", "created", "", false⟩ ⟨0, 5, none⟩
      .nil [] "" (by decide)).2).trans (by decide)⟩

/-- C8 (counterexample): a record whose one field is a complex number holding zero, with
the key `c` and without `sendzero`, flattens without any error to the empty parameter
set. -/
theorem zero_unsupported_field_is_omitted :
    MapURLValues sampleLib (record [(⟨"C", "c", "", false⟩, .other true true)]) =
        .returned (some []) none ∧
      ¬ ∃ err, MapURLValues sampleLib (record [(⟨"C", "c", "", false⟩, .other true true)]) =
        .returned none (some err) := by
  have h : MapURLValues sampleLib (record [(⟨"C", "c", "", false⟩, .other true true)]) =
      .returned (some []) none := by decide
  refine ⟨h, ?_⟩
  rintro ⟨err, he⟩
  rw [h] at he
  cases he

/-- C8 (amended): when the fields before it flatten without error, a field of an
unsupported kind and comparable type (or a non-nil pointer to such a value) whose key is
not the skip sentinel and whose value is not the zero value of its type, or that carries
`sendzero`, makes `MapURLValues` return the nil parameter set and the mapping error of
that field, whose message is "cannot map field `Name`, unsupported type.". -/
theorem unsupported_field_error (L : GoLib) (pre post : List (StructField × Value))
    (field : StructField) (z viaPtr : Bool) (mid : Values)
    (hpre : mapFields L (Fields.ofList pre) [] "" = .ok mid)
    (hk : specKey L field ≠ "-") (hz : z = false ∨ sendzero field = true) :
    MapURLValues L
        (record (pre ++
          (field, if viaPtr then .ptrTo (.other true z) else .other true z) :: post)) =
        .returned none (some ⟨field, "unsupported type."⟩) ∧
      ErrMap.Error ⟨field, "unsupported type."⟩ =
        "cannot map field `" ++ field.Name ++ "`, unsupported type." := by
  refine ⟨?_, ?_⟩
  · simp only [MapURLValues, mapURLValues_struct, record, Fields.ofList_append,
      mapFields_append, hpre, Run.next, Fields.ofList]
    cases viaPtr
    · simp only [Bool.false_eq_true, if_false]
      rw [mapFields_value L field (.other true z) _ _ _ hk rfl,
        mapField_other L _ _ _ _ _ _ hz]
      rfl
    · simp only [if_true]
      rw [mapFields_ptrTo L field (.other true z) _ _ _ hk, mapField_other L _ _ _ _ _ _ hz]
      rfl
  · simp only [ErrMap.Error]
    rw [String.append_assoc]
    rfl

/-- C8 (amended), at a record whose second field is a non-zero complex number. -/
theorem unsupported_field_error_witness :
    MapURLValues sampleLib
        (record ([(⟨"A", "a", "", false⟩, .int 7)] ++
          (⟨"C", "c", "", false⟩, if false then .ptrTo (.other true false)
            else .other true false) :: [])) =
        .returned none (some ⟨⟨"C", "c", "", false⟩, "unsupported type."⟩) ∧
      ErrMap.Error ⟨⟨"C", "c", "", false⟩, "unsupported type."⟩ =
        "cannot map field `" ++ "C" ++ "`, unsupported type." :=
  unsupported_field_error sampleLib [(⟨"A", "a", "", false⟩, .int 7)] []
    ⟨"C", "c", "", false⟩ false false [("a", ["7"])] (by decide) (by decide) (Or.inl rfl)

/-- C9 (counterexample): a record whose one field is an empty `map[int]string`, with the
key `m` and without `sendzero`, flattens without any error to the empty parameter set. -/
theorem empty_int_map_is_omitted :
    MapURLValues sampleLib (record [(⟨"M", "m", "", false⟩, .otherMap false true 0)]) =
        .returned (some []) none ∧
      ¬ ∃ err, MapURLValues sampleLib (record [(⟨"M", "m", "", false⟩, .otherMap false true 0)]) =
        .returned none (some err) := by
  have h : MapURLValues sampleLib (record [(⟨"M", "m", "", false⟩, .otherMap false true 0)]) =
      .returned (some []) none := by decide
  refine ⟨h, ?_⟩
  rintro ⟨err, he⟩
  rw [h] at he
  cases he

/-- C9 (amended): when the fields before it flatten without error, a field declared as a
map whose key kind or element kind is not String, whose key is not the skip sentinel and
which is not empty, or carries `sendzero`, makes the run stop with the mapping error of
that field while the target is exactly what the earlier fields left, and `MapURLValues`
returns the nil parameter set and that error. -/
theorem non_text_map_error (L : GoLib) (pre post : List (StructField × Value))
    (field : StructField) (ks es : Bool) (len : Nat) (mid : Values)
    (hpre : mapFields L (Fields.ofList pre) [] "" = .ok mid)
    (hk : specKey L field ≠ "-") (hty : ks = false ∨ es = false)
    (hz : len ≠ 0 ∨ sendzero field = true) :
    mapURLValues L (record (pre ++ (field, .otherMap ks es len) :: post)) [] "" =
        .error ⟨field, "unsupported type. (only map[string]string supported for maps)"⟩ mid ∧
      MapURLValues L (record (pre ++ (field, .otherMap ks es len) :: post)) =
        .returned none
          (some ⟨field, "unsupported type. (only map[string]string supported for maps)"⟩) := by
  have h : mapURLValues L (record (pre ++ (field, .otherMap ks es len) :: post)) [] "" =
      .error ⟨field, "unsupported type. (only map[string]string supported for maps)"⟩
        mid := by
    simp only [mapURLValues_struct, record, Fields.ofList_append, mapFields_append, hpre,
      Run.next, Fields.ofList]
    rw [mapFields_value L field (.otherMap ks es len) _ _ _ hk rfl,
      mapField_otherMap L _ _ _ _ _ _ _ hty hz]
    rfl
  exact ⟨h, by simp only [MapURLValues, h]⟩

/-- C9 (amended), at a record whose second field is a `map[int]string` with one entry. -/
theorem non_text_map_error_witness :
    mapURLValues sampleLib
        (record ([(⟨"A", "a", "", false⟩, .int 7)] ++
          (⟨"M", "m", "", false⟩, .otherMap false true 1) :: [])) [] "" =
        .error ⟨⟨"M", "m", "", false⟩,
          "unsupported type. (only map[string]string supported for maps)"⟩ [("a", ["7"])] ∧
      MapURLValues sampleLib
        (record ([(⟨"A", "a", "", false⟩, .int 7)] ++
          (⟨"M", "m", "", false⟩, .otherMap false true 1) :: [])) =
        .returned none
          (some ⟨⟨"M", "m", "", false⟩,
            "unsupported type. (only map[string]string supported for maps)"⟩) :=
  non_text_map_error sampleLib [(⟨"A", "a", "", false⟩, .int 7)] []
    ⟨"M", "m", "", false⟩ false true 1 [("a", ["7"])] (by decide) (by decide) (Or.inl rfl)
    (Or.inl (by decide))

/-- C11 (counterexample): a text field holding the empty text and carrying `sendzero`
emits no entry: the record of that one field flattens to the empty parameter set. -/
theorem empty_text_with_sendzero_is_omitted :
    sendzero ⟨"Name", "name,sendzero", "", false⟩ = true ∧
      MapURLValues sampleLib (record [(⟨"Name", "name,sendzero", "", false⟩, .string "")]) =
        .returned (some []) none := by
  decide

/-- C11 (amended): a field of kind boolean, signed integer, unsigned integer or float that
carries `sendzero` and holds the zero value of its type is not omitted: its text is not
empty and the loop stores it under the resolved key, so the record of that one field
flattens to exactly that entry. A text field holding the empty text stores nothing. -/
theorem sendzero_emits_zero_scalar (L : GoLib) (field : StructField) (v : Value)
    (text : String) (rest : Fields) (target : Values) (parent : String)
    (hk : specKey L field ≠ "-") (hs : sendzero field = true)
    (ht : scalarText L v = some text) (hz : v.eqZero = true) (hnt : ∀ s, v ≠ .string s) :
    text ≠ "" ∧
      mapFields L (.cons field v rest) target parent =
        mapFields L rest (target.Set (nest parent (specKey L field)) text) parent ∧
      MapURLValues L (record [(field, v)]) =
        .returned (some [(specKey L field, [text])]) none ∧
      mapFields L (.cons field (.string "") rest) target parent =
        mapFields L rest target parent := by
  have hne := eqZero_scalar_text_ne L v text ht hz hnt
  have hstep : ∀ rest target parent, mapFields L (.cons field v rest) target parent =
      mapFields L rest (target.Set (nest parent (specKey L field)) text) parent :=
    fun rest target parent =>
      mapFields_scalar_step L field v text rest target parent hk ht (by simp [hs]) hne
  refine ⟨hne, hstep rest target parent, ?_, ?_⟩
  · simp only [MapURLValues, mapURLValues_struct, record, Fields.ofList]
    rw [hstep, mapFields_nil, nest_empty]
    simp [Values.Set]
  · rw [mapFields_value L field (.string "") _ _ _ hk rfl,
      mapField_scalar L field false (.string "") "" _ _ _ rfl]
    simp [store, Run.next]

/-- C11 (amended), at a zero integer and a zero boolean with `sendzero`. -/
theorem sendzero_emits_zero_scalar_witness :
    MapURLValues sampleLib (record [(⟨"Amount", "amount,sendzero", "", false⟩, .int 0)]) =
        .returned (some [("amount", ["0"])]) none ∧
      MapURLValues sampleLib (record [(⟨"Flag", "flag,sendzero", "", false⟩, .bool false)]) =
        .returned (some [("flag", ["false"])]) none :=
  ⟨((sendzero_emits_zero_scalar sampleLib ⟨"Amount", "amount,sendzero", "", false⟩ (.int 0)
      "0" .nil [] "" (by decide) (by decide) rfl rfl (by intro s h; cases h)).2.2.1).trans
      (by decide),
   ((sendzero_emits_zero_scalar sampleLib ⟨"Flag", "flag,sendzero", "", false⟩ (.bool false)
      "false" .nil [] "" (by decide) (by decide) rfl rfl (by intro s h; cases h)).2.2.1).trans
      (by decide)⟩

/-- C12: a nil pointer field contributes nothing, whatever its options and pointee type:
the loop goes on as if the field were absent; a non-nil pointer to a scalar contributes
what the field holding the pointee itself contributes. Stated for the step of the loop
in any scope and for the record passed to `MapURLValues`. -/
theorem pointer_field_contribution (L : GoLib) (pre post : List (StructField × Value))
    (field : StructField) (w : Value) (hw : (scalarText L w).isSome = true) :
    (∀ rest target parent,
        mapFields L (.cons field .nilPtr rest) target parent =
          mapFields L rest target parent) ∧
      (∀ rest target parent,
        mapFields L (.cons field (.ptrTo w) rest) target parent =
          mapFields L (.cons field w rest) target parent) ∧
      MapURLValues L (record (pre ++ (field, .nilPtr) :: post)) =
        MapURLValues L (record (pre ++ post)) ∧
      MapURLValues L (record (pre ++ (field, .ptrTo w) :: post)) =
        MapURLValues L (record (pre ++ (field, w) :: post)) := by
  obtain ⟨text, htext⟩ := Option.isSome_iff_exists.mp hw
  have hp := scalar_not_ptr L w hw
  have hptr : ∀ rest target parent,
      mapFields L (.cons field (.ptrTo w) rest) target parent =
        mapFields L (.cons field w rest) target parent := by
    intro rest target parent
    by_cases hk : specKey L field = "-"
    · rw [mapFields_skip _ _ _ _ _ _ hk, mapFields_skip _ _ _ _ _ _ hk]
    · rw [mapFields_ptrTo L field w _ _ _ hk, mapFields_value L field w _ _ _ hk hp,
        mapField_scalar L field true w text _ _ _ htext,
        mapField_scalar L field false w text _ _ _ htext]
  refine ⟨fun rest target parent => mapFields_nilPtr L field rest target parent, hptr, ?_, ?_⟩
  · simp only [MapURLValues, mapURLValues_struct, record, Fields.ofList_append,
      mapFields_append, Fields.ofList, mapFields_nilPtr]
  · simp only [MapURLValues, mapURLValues_struct, record, Fields.ofList_append,
      mapFields_append, Fields.ofList, hptr]

/-- C12, at a nil pointer carrying `sendzero`, a pointer to 7 and a pointer to 0. -/
theorem pointer_field_contribution_witness :
    MapURLValues sampleLib
        (record ([] ++ (⟨"P", "p,sendzero", "", false⟩, .nilPtr) :: [])) =
        .returned (some []) none ∧
      MapURLValues sampleLib (record ([] ++ (⟨"P", "p", "", false⟩, .ptrTo (.int 7)) :: [])) =
        .returned (some [("p", ["7"])]) none ∧
      MapURLValues sampleLib (record ([] ++ (⟨"P", "p", "", false⟩, .ptrTo (.int 0)) :: [])) =
        .returned (some []) none :=
  ⟨((pointer_field_contribution sampleLib [] [] ⟨"P", "p,sendzero", "", false⟩ (.int 7)
      rfl).2.2.1).trans (by decide),
   ((pointer_field_contribution sampleLib [] [] ⟨"P", "p", "", false⟩ (.int 7)
      rfl).2.2.2).trans (by decide),
   ((pointer_field_contribution sampleLib [] [] ⟨"P", "p", "", false⟩ (.int 0)
      rfl).2.2.2).trans (by decide)⟩

/-- C13 (the failing input): a record whose fields are all of supported kinds, a nested
record `Card` holding a text and a `map[string]string`, does not flatten: the zero check
compares the nested struct with `==` and the run panics. -/
theorem supported_record_with_nested_map_panics (L : GoLib) :
    MapURLValues L
      (record [(⟨"Card", "", "card", false⟩,
        record [(⟨"Name", "", "name", false⟩, .string "John"),
          (⟨"Meta", "", "meta", false⟩, .stringMap [("a", "1")])])]) =
      .panicked .uncomparable := by
  simp [MapURLValues, mapURLValues, record, Fields.ofList, mapFields_value, specKey, queryName,
    Value.isPtr, mapField, zeroCheck, Value.comparable, Fields.comparable, Run.next]

/-- C14: when two scalar fields resolve to the same key `k` and both produce non-empty
text, the record of the two flattens to the single entry `k -> [text of the later field]`;
more generally, when the later field is the last of a record whose earlier fields flatten
without error, the result binds `k` to exactly the text of the later field. -/
theorem later_field_overwrites (L : GoLib) (f1 f2 : StructField) (v1 v2 : Value)
    (t1 t2 : String)
    (hk : specKey L f1 ≠ "-") (hsame : specKey L f2 = specKey L f1)
    (h1 : scalarText L v1 = some t1) (h2 : scalarText L v2 = some t2)
    (he1 : (v1.eqZero && !sendzero f1) = false) (he2 : (v2.eqZero && !sendzero f2) = false)
    (hn1 : t1 ≠ "") (hn2 : t2 ≠ "") :
    MapURLValues L (record [(f1, v1), (f2, v2)]) =
        .returned (some [(specKey L f1, [t2])]) none ∧
      ∀ pre mid target,
        mapFields L (Fields.ofList (pre ++ (f1, v1) :: mid)) [] "" = .ok target →
        ∃ vals,
          MapURLValues L (record ((pre ++ (f1, v1) :: mid) ++ [(f2, v2)])) =
            .returned (some vals) none ∧
          vals.lookup (specKey L f1) = some [t2] := by
  have hk2 : specKey L f2 ≠ "-" := by rw [hsame]; exact hk
  constructor
  · simp only [MapURLValues, mapURLValues_struct, record, Fields.ofList]
    rw [mapFields_scalar_step L f1 v1 t1 _ _ _ hk h1 he1 hn1,
      mapFields_scalar_step L f2 v2 t2 _ _ _ hk2 h2 he2 hn2, mapFields_nil, nest_empty,
      nest_empty, hsame]
    simp [Values.Set]
  · intro pre mid target hpre
    refine ⟨target.Set (specKey L f1) t2, ?_, Values.lookup_Set_self _ _ _⟩
    simp only [MapURLValues, mapURLValues_struct, record]
    rw [Fields.ofList_append, mapFields_append, hpre]
    simp only [Run.next, Fields.ofList]
    rw [mapFields_scalar_step L f2 v2 t2 _ _ _ hk2 h2 he2 hn2, mapFields_nil, nest_empty,
      hsame]

/-- C14, at two fields that both resolve to the key `id`. -/
theorem later_field_overwrites_witness :
    MapURLValues sampleLib
        (record [(⟨"A", "id", "", false⟩, .string "first"),
          (⟨"B", "", "id", false⟩, .int 2)]) =
      .returned (some [("id", ["2"])]) none :=
  ((later_field_overwrites sampleLib ⟨"A", "id", "", false⟩ ⟨"B", "", "id", false⟩
      (.string "first") (.int 2) "first" "2" (by decide) (by decide) rfl rfl (by decide)
      (by decide) (by decide) (by decide)).1).trans (by decide)

/-- C16 (the failing input): a field declared as a pointer to a timestamp that points to
a non-zero instant does not store the formatted timestamp: `field.Type` is the pointer
type, so the value is flattened as a nested record and the run panics on the first
unexported field of `time.Time`. -/
theorem pointer_to_time_panics (L : GoLib) (field : StructField) (t : Time)
    (hk : specKey L field ≠ "-") (ht : t.IsZero = false) :
    MapURLValues L (record [(field, .ptrTo (.time t))]) = .panicked .unexportedField := by
  have he : Value.eqZero (.time t) = false := by
    cases h : Value.eqZero (.time t)
    · rfl
    · rw [eqZero_time_IsZero t h] at ht
      cases ht
  simp only [MapURLValues, mapURLValues_struct, record, Fields.ofList]
  rw [mapFields_ptrTo L field (.time t) _ _ _ hk]
  simp [mapField, zeroCheck, Value.comparable, he, Run.next]

/-- C16, at the field `At` pointing to a non-zero instant. -/
theorem pointer_to_time_panics_witness :
    Time.IsZero ⟨0, 5, none⟩ = false ∧
      MapURLValues sampleLib (record [(⟨"At", "", "at", false⟩, .ptrTo (.time ⟨0, 5, none⟩))]) =
        .panicked .unexportedField :=
  ⟨by decide, pointer_to_time_panics sampleLib ⟨"At", "", "at", false⟩ ⟨0, 5, none⟩
    (by decide) (by decide)⟩

/-- C17: a field whose `query` directive has an empty name takes its key from the `json`
annotation or, when that is empty, from the identifier in lower case, and the options
of the directive still apply: with `sendzero` among them a false boolean and a zero
integer are stored under the fallback key. The loop reads the options only to learn
whether `sendzero` is one of them, so fields that agree on the key and on that answer
contribute the same scalar entries. -/
theorem empty_query_name_fallback (L : GoLib) (field : StructField)
    (hq : queryName field = "") (hs : sendzero field = true)
    (hk : (if field.json ≠ "" then field.json else L.ToLower field.Name) ≠ "-") :
    (candidate L field).1 = (if field.json ≠ "" then field.json else L.ToLower field.Name) ∧
      scanOpts (candidate L field).2 false = true ∧
      MapURLValues L (record [(field, .bool false)]) =
        .returned
          (some [(if field.json ≠ "" then field.json else L.ToLower field.Name, ["false"])])
          none ∧
      MapURLValues L (record [(field, .int 0)]) =
        .returned
          (some [(if field.json ≠ "" then field.json else L.ToLower field.Name, ["0"])])
          none ∧
      (∀ g : StructField,
        scanOpts (candidate L g).2 false = decide ("sendzero" ∈ (Split g.query).tail)) ∧
      (∀ (g : StructField) v rest target parent, specKey L g = specKey L field →
        sendzero g = sendzero field → (scalarText L v).isSome = true →
        mapFields L (.cons g v rest) target parent =
          mapFields L (.cons field v rest) target parent) := by
  have hkey : specKey L field =
      (if field.json ≠ "" then field.json else L.ToLower field.Name) := by
    simp [specKey, hq]
  have hk2 : specKey L field ≠ "-" := by rw [hkey]; exact hk
  refine ⟨by rw [candidate_fst, hkey], by rw [candidate_snd, hs], ?_, ?_,
    fun g => by rw [candidate_snd]; rfl, ?_⟩
  · rw [← hkey]
    exact (bool_field_step L field hk2 hs)
  · rw [← hkey]
    exact (int_field_step L field hk2 hs)
  · intro g v rest target parent hgk hgs hv
    obtain ⟨text, htext⟩ := Option.isSome_iff_exists.mp hv
    have hp := scalar_not_ptr L v hv
    by_cases hskip : specKey L field = "-"
    · exact absurd hskip hk2
    · have hg : specKey L g ≠ "-" := by rw [hgk]; exact hskip
      rw [mapFields_value L g v _ _ _ hg hp, mapFields_value L field v _ _ _ hskip hp,
        mapField_scalar L g false v text _ _ _ htext,
        mapField_scalar L field false v text _ _ _ htext, hgk, hgs]

/-- C17, at the directive `,sendzero` with a `json` annotation and at the directive
`,omitempty,sendzero` without one. -/
theorem empty_query_name_fallback_witness :
    MapURLValues sampleLib (record [(⟨"Paid", ",sendzero", "paid_flag", false⟩, .bool false)]) =
        .returned (some [("paid_flag", ["false"])]) none ∧
      MapURLValues sampleLib (record [(⟨"Amount", ",omitempty,sendzero", "", false⟩, .int 0)]) =
        .returned (some [("amount", ["0"])]) none :=
  ⟨((empty_query_name_fallback sampleLib ⟨"Paid", ",sendzero", "paid_flag", false⟩
      (by decide) (by decide) (by decide)).2.2.1).trans (by decide),
   ((empty_query_name_fallback sampleLib ⟨"Amount", ",omitempty,sendzero", "", false⟩
      (by decide) (by decide) (by decide)).2.2.2.1).trans (by decide)⟩

/-- C19: with an empty `query` name and a non-empty `json` annotation the key is the
whole annotation, commas included; the field is skipped exactly when the annotation is
"-", and otherwise a text value is stored under the whole annotation. -/
theorem json_annotation_verbatim (L : GoLib) (field : StructField)
    (hq : queryName field = "") (hj : field.json ≠ "") :
    (candidate L field).1 = field.json ∧
      ((candidate L field).1 = "-" ↔ field.json = "-") ∧
      (∀ s, s ≠ "" → field.json ≠ "-" →
        MapURLValues L (record [(field, .string s)]) =
          .returned (some [(field.json, [s])]) none) ∧
      (∀ v, field.json = "-" →
        MapURLValues L (record [(field, v)]) = .returned (some []) none) := by
  have hkey : specKey L field = field.json := by simp [specKey, hq, hj]
  have hc : (candidate L field).1 = field.json := by rw [candidate_fst, hkey]
  refine ⟨hc, by rw [hc], ?_, ?_⟩
  · intro s hs hne
    have hk : specKey L field ≠ "-" := by rw [hkey]; exact hne
    simp only [MapURLValues, mapURLValues_struct, record, Fields.ofList]
    rw [mapFields_scalar_step L field (.string s) s _ _ _ hk rfl
      (by simp [Value.eqZero, hs]) hs, mapFields_nil, nest_empty, hkey]
    simp [Values.Set]
  · intro v hdash
    have hk : specKey L field = "-" := by rw [hkey]; exact hdash
    simp only [MapURLValues, mapURLValues_struct, record, Fields.ofList]
    rw [mapFields_skip L field v _ _ _ hk, mapFields_nil]

/-- C19, at the annotations `amount,omitempty` and `-,omitempty`: both are keys as they
stand, the second is not the skip sentinel. -/
theorem json_annotation_verbatim_witness :
    MapURLValues sampleLib
        (record [(⟨"Amount", "", "amount,omitempty", false⟩, .string "5")]) =
        .returned (some [("amount,omitempty", ["5"])]) none ∧
      MapURLValues sampleLib (record [(⟨"Amount", "", "-,omitempty", false⟩, .string "5")]) =
        .returned (some [("-,omitempty", ["5"])]) none :=
  ⟨(json_annotation_verbatim sampleLib ⟨"Amount", "", "amount,omitempty", false⟩
      (by decide) (by decide)).2.2.1 "5" (by decide) (by decide),
   (json_annotation_verbatim sampleLib ⟨"Amount", "", "-,omitempty", false⟩
      (by decide) (by decide)).2.2.1 "5" (by decide) (by decide)⟩

/-- C20: the zero check of a nested record field (named or embedded) looks at the record
as a whole. When the record equals the zero value of its type and the field does not
carry `sendzero`, the field is passed over and nothing is stored for its inner fields,
whatever options they carry; when the field carries `sendzero`, or some inner field is
not zero, the inner fields are flattened each by its own options. For a named field with
key `p` and scalar inner fields the result is the empty set in the first case and the
entries `p[n]` of the emitted inner fields in the second. -/
theorem nested_zero_check_is_whole (L : GoLib) (outer : StructField) (inner rest : Fields)
    (scalars : List (StructField × Value)) (target : Values) (parent : String)
    (hk : specKey L outer ≠ "-") (hc : inner.comparable = true)
    (hs : ∀ gv ∈ scalars, (scalarText L gv.2).isSome = true) :
    (inner.eqZero = true → sendzero outer = false →
        mapFields L (.cons outer (.struct inner) rest) target parent =
          mapFields L rest target parent) ∧
      ((sendzero outer = true ∨ inner.eqZero = false) →
        mapFields L (.cons outer (.struct inner) rest) target parent =
          (mapURLValues L (.struct inner) target
            (if outer.Anonymous then "" else nest parent (specKey L outer))).next
            (fun target => mapFields L rest target parent)) ∧
      (outer.Anonymous = false → specKey L outer ≠ "" →
        MapURLValues L (record [(outer, record scalars)]) =
          .returned
            (some (if (Fields.ofList scalars).eqZero && !sendzero outer then []
              else storeUnder L (specKey L outer) scalars []))
            none) := by
  have hzero : ∀ (inner rest : Fields) target parent, inner.comparable = true →
      inner.eqZero = true → sendzero outer = false →
      mapFields L (.cons outer (.struct inner) rest) target parent =
        mapFields L rest target parent := by
    intro inner rest target parent hc hz hso
    rw [mapFields_value L outer (.struct inner) _ _ _ hk rfl, hso,
      mapField_struct_zero L outer false inner _ _ hc hz]
    rfl
  have henter : ∀ (inner rest : Fields) target parent, inner.comparable = true →
      (sendzero outer = true ∨ inner.eqZero = false) →
      mapFields L (.cons outer (.struct inner) rest) target parent =
        (mapURLValues L (.struct inner) target
          (if outer.Anonymous then "" else nest parent (specKey L outer))).next
          (fun target => mapFields L rest target parent) := by
    intro inner rest target parent hc h
    rw [mapFields_value L outer (.struct inner) _ _ _ hk rfl,
      mapField_struct_enter L outer false inner _ _ _ hc h, mapURLValues_struct]
    cases outer.Anonymous <;> simp
  refine ⟨hzero inner rest target parent hc, henter inner rest target parent hc, ?_⟩
  intro ha hp
  have hsc := scalars_comparable L scalars hs
  simp only [MapURLValues, mapURLValues_struct, record, Fields.ofList]
  by_cases hcond : ((Fields.ofList scalars).eqZero && !sendzero outer) = true
  · simp only [Bool.and_eq_true, Bool.not_eq_true'] at hcond
    rw [hzero _ _ _ _ hsc hcond.1 hcond.2, mapFields_nil]
    simp [hcond.1, hcond.2]
  · have h : sendzero outer = true ∨ (Fields.ofList scalars).eqZero = false := by
      cases h1 : sendzero outer <;> cases h2 : (Fields.ofList scalars).eqZero <;>
        simp [h1, h2] at hcond ⊢
    rw [henter _ _ _ _ hsc h, ha, mapURLValues_struct]
    simp only [Bool.false_eq_true, if_false, nest_empty]
    rw [mapFields_scalars L _ hp scalars hs]
    simp [Run.next, mapFields_nil, hcond]

/-- C20, at a nested record `card` whose inner field `live` carries `sendzero`: nothing is
stored while the record is all zero, the inner field is stored once `card` carries
`sendzero`, and once a sibling inner field is not zero. -/
theorem nested_zero_check_is_whole_witness :
    MapURLValues sampleLib
        (record [(⟨"Card", "card", "", false⟩,
          record [(⟨"Live", "live,sendzero", "", false⟩, .bool false)])]) =
        .returned (some []) none ∧
      MapURLValues sampleLib
        (record [(⟨"Card", "card,sendzero", "", false⟩,
          record [(⟨"Live", "live,sendzero", "", false⟩, .bool false)])]) =
        .returned (some [("card[live]", ["false"])]) none ∧
      MapURLValues sampleLib
        (record [(⟨"Card", "card", "", false⟩,
          record [(⟨"Live", "live,sendzero", "", false⟩, .bool false),
            (⟨"Name", "name", "", false⟩, .string "John")])]) =
        .returned (some [("card[live]", ["false"]), ("card[name]", ["John"])]) none :=
  ⟨((nested_zero_check_is_whole sampleLib ⟨"Card", "card", "", false⟩ .nil .nil
      [(⟨"Live", "live,sendzero", "", false⟩, .bool false)] [] "" (by decide) rfl
      (by decide)).2.2 rfl (by decide)).trans (by decide),
   ((nested_zero_check_is_whole sampleLib ⟨"Card", "card,sendzero", "", false⟩ .nil .nil
      [(⟨"Live", "live,sendzero", "", false⟩, .bool false)] [] "" (by decide) rfl
      (by decide)).2.2 rfl (by decide)).trans (by decide),
   ((nested_zero_check_is_whole sampleLib ⟨"Card", "card", "", false⟩ .nil .nil
      [(⟨"Live", "live,sendzero", "", false⟩, .bool false),
        (⟨"Name", "name", "", false⟩, .string "John")] [] "" (by decide) rfl
      (by decide)).2.2 rfl (by decide)).trans (by decide)⟩

/-- C15: a non-zero signed integer field and a non-zero unsigned integer field with
resolved key `k` store under `k` the decimal text of `strconv.FormatInt` and
`strconv.FormatUint`: parsing the text in base 10 gives the value back, the unsigned text
and the text of a positive value are digits only with no leading zero, and the text of a
negative value is a minus sign followed by such digits. -/
theorem integer_field_decimal_text (L : GoLib) (field : StructField) (v : Int) (n : Nat)
    (hk : specKey L field ≠ "-") (hv : v ≠ 0) (hn : n ≠ 0) :
    MapURLValues L (record [(field, .int v)]) =
        .returned (some [(specKey L field, [FormatInt v])]) none ∧
      MapURLValues L (record [(field, .uint n)]) =
        .returned (some [(specKey L field, [FormatUint n])]) none ∧
      ParseInt (FormatInt v) = some v ∧
      ParseUint (FormatUint n) = some n ∧
      canonicalDigits (FormatUint n).data = true ∧
      (0 < v → canonicalDigits (FormatInt v).data = true) ∧
      (v < 0 → ∃ cs, (FormatInt v).data = '-' :: cs ∧ canonicalDigits cs = true) := by
  obtain ⟨hparse, hne, hpos, hneg⟩ := FormatInt_spec v
  obtain ⟨huparse, hune, hucanon⟩ := FormatUint_spec n
  refine ⟨?_, ?_, hparse, huparse, hucanon hn, hpos, hneg⟩
  · simp only [MapURLValues, mapURLValues_struct, record, Fields.ofList]
    rw [mapFields_scalar_step L field (.int v) (FormatInt v) _ _ _ hk rfl
      (by simp [Value.eqZero, hv]) hne, mapFields_nil, nest_empty]
    simp [Values.Set]
  · simp only [MapURLValues, mapURLValues_struct, record, Fields.ofList]
    rw [mapFields_scalar_step L field (.uint n) (FormatUint n) _ _ _ hk rfl
      (by simp [Value.eqZero, hn]) hune, mapFields_nil, nest_empty]
    simp [Values.Set]

/-- C15, at the values -1200 and 18446744073709551615. -/
theorem integer_field_decimal_text_witness :
    MapURLValues sampleLib (record [(⟨"Amount", "amount", "", false⟩, .int (-1200))]) =
        .returned (some [("amount", ["-1200"])]) none ∧
      MapURLValues sampleLib
        (record [(⟨"Amount", "amount", "", false⟩, .uint 18446744073709551615)]) =
        .returned (some [("amount", ["18446744073709551615"])]) none ∧
      ParseInt "-1200" = some (-1200) :=
  ⟨((integer_field_decimal_text sampleLib ⟨"Amount", "amount", "", false⟩ (-1200)
      18446744073709551615 (by decide) (by decide) (by decide)).1).trans (by decide),
   ((integer_field_decimal_text sampleLib ⟨"Amount", "amount", "", false⟩ (-1200)
      18446744073709551615 (by decide) (by decide) (by decide)).2.1).trans (by rfl),
   by decide⟩

/-- C18: in the parameter set `MapURLValues` returns, every key is bound to exactly one
value, and a value is the empty text only under a key of the form `k[mk]` where `mk` is
bound to the empty text in a `map[string]string` of the record; so a record that holds no
such map entry yields non-empty values only. -/
theorem flattened_values_invariant (L : GoLib) (i : Value) (vals : Values)
    (h : MapURLValues L i = .returned (some vals) none) :
    (∀ key vs, vals.lookup key = some vs →
        ∃ s, vs = [s] ∧
          (s = "" → ∃ k mk, key = subKey k mk ∧ (mk, "") ∈ i.mapEntries)) ∧
      ((∀ mk, (mk, "") ∉ i.mapEntries) →
        ∀ key vs, vals.lookup key = some vs → ∃ s, vs = [s] ∧ s ≠ "") := by
  have hrun : ∃ fs, i.mapEntries = fs.mapEntries ∧ mapFields L fs [] "" = .ok vals := by
    cases i with
    | struct fs =>
      refine ⟨fs, rfl, ?_⟩
      simp only [MapURLValues, mapURLValues_struct] at h
      cases hr : mapFields L fs [] "" with
      | ok out => rw [hr] at h; simp at h; rw [h]
      | error e t => rw [hr] at h; simp at h
      | panic c => rw [hr] at h; simp at h
    | ptrTo w =>
      cases w with
      | struct fs =>
        refine ⟨fs, rfl, ?_⟩
        simp only [MapURLValues, mapURLValues] at h
        cases hr : mapFields L fs [] "" with
        | ok out => rw [hr] at h; simp at h; rw [h]
        | error e t => rw [hr] at h; simp at h
        | panic c => rw [hr] at h; simp at h
      | _ => simp [MapURLValues, mapURLValues] at h
    | _ => simp [MapURLValues, mapURLValues] at h
  obtain ⟨fs, hfs, hok⟩ := hrun
  have hinv := mapFields_inv L
    (fun key => ∃ k mk, key = subKey k mk ∧ (mk, "") ∈ i.mapEntries) fs [] "" vals
    (fun kv hkv => by simp at hkv)
    (fun mk hmem k => ⟨k, mk, rfl, by rw [hfs]; exact hmem⟩) hok
  have hfirst : ∀ key vs, vals.lookup key = some vs →
      ∃ s, vs = [s] ∧ (s = "" → ∃ k mk, key = subKey k mk ∧ (mk, "") ∈ i.mapEntries) :=
    fun key vs hl => hinv (key, vs) (Values.lookup_mem vals key vs hl)
  refine ⟨hfirst, ?_⟩
  intro hno key vs hl
  obtain ⟨s, hs, hempty⟩ := hfirst key vs hl
  refine ⟨s, hs, fun he => ?_⟩
  obtain ⟨k, mk, -, hmem⟩ := hempty he
  exact hno mk hmem

/-- C18, at a record with a text field and a map that binds `a` to the empty text: the
result is the one in the hypothesis, and its only empty value is under `meta[a]`. -/
theorem flattened_values_invariant_witness :
    MapURLValues sampleLib
        (record [(⟨"Name", "name", "", false⟩, .string "John"),
          (⟨"Meta", "meta", "", false⟩, .stringMap [("a", "")])]) =
        .returned (some [("name", ["John"]), ("meta[a]", [""])]) none ∧
      ∀ key vs, Values.lookup [("name", ["John"]), ("meta[a]", [""])] key = some vs →
        ∃ s, vs = [s] ∧
          (s = "" → ∃ k mk, key = subKey k mk ∧
            (mk, "") ∈ (record [(⟨"Name", "name", "", false⟩, .string "John"),
              (⟨"Meta", "meta", "", false⟩, .stringMap [("a", "")])]).mapEntries) :=
  ⟨by decide,
   (flattened_values_invariant sampleLib
      (record [(⟨"Name", "name", "", false⟩, .string "John"),
        (⟨"Meta", "meta", "", false⟩, .stringMap [("a", "")])])
      [("name", ["John"]), ("meta[a]", [""])] (by decide)).1⟩

end Omise
